import Mathlib

/-!
Shallow embedding of the CITE-seq-Count read-processing pipeline
(`cite_seq_count/processing.py` and `cite_seq_count/io.py`).

Python dicts and `collections.Counter`s are modelled either as
association lists (when the code iterates over them, so insertion order
matters) or as total functions with default value `0` (when only
pointwise reads and `+=` updates occur).  Python floats are modelled as
exact rationals.  Code paths that raise exceptions (`KeyError`,
`IndexError`) are modelled with `Option`.  File-system effects of the
staging stage are modelled as explicit event traces in the state.
-/

/-- Python string slice `s[a:b]` for non-negative bounds (clamped). -/
def pySlice (s : String) (a b : Nat) : String := ⟨(s.data.take b).drop a⟩

/-- Python string slice `s[:n]`. -/
def pyTake (s : String) (n : Nat) : String := ⟨s.data.take n⟩

/-- Python `str.strip()`: remove leading and trailing whitespace. -/
def pyStrip (s : String) : String :=
  ⟨((s.data.dropWhile Char.isWhitespace).reverse.dropWhile Char.isWhitespace).reverse⟩

/-- `Levenshtein.hamming` on equal-length strings: the number of
positions where the two strings differ.  (The Python library raises on
unequal lengths; all uses in the program compare equal-length strings.) -/
def hamming (a b : String) : Nat :=
  (a.data.zip b.data).countP (fun p => p.1 != p.2)

/-- One entry of the ordered reference tag panel (`named_tuples_tags_map`):
a named tuple with a `name` and a `sequence`. -/
structure Tag where
  name : String
  sequence : String
deriving DecidableEq

/-- Loop of `processing.find_best_match`, carrying the mutable
`best_score` / `best_match` variables.  In the `elif score <= best_score`
branch the Python code assigns `best_match = tag.name` and then
immediately `return best_match`. -/
def find_best_match_go (TAG_seq : String) : List Tag → Nat → String → String
  | [], _, best_match => best_match
  | tag :: rest, best_score, best_match =>
    let score := hamming tag.sequence (pyTake TAG_seq tag.sequence.length)
    if score = 0 then tag.name
    else if score ≤ best_score then tag.name
    else find_best_match_go TAG_seq rest best_score best_match

/-- `processing.find_best_match`: `best_match` starts as `"unmapped"`,
`best_score` starts as `maximum_distance`. -/
def find_best_match (TAG_seq : String) (tags : List Tag) (maximum_distance : Nat) : String :=
  find_best_match_go TAG_seq tags maximum_distance "unmapped"

/-- `sum(counter.values())` for a Counter modelled as an association list. -/
def counterValuesSum (c : List (String × Nat)) : Nat :=
  (c.map Prod.snd).sum

/-- The abort message of `processing.check_unmapped`, with the
`--start_trim` value substituted for the format placeholder. -/
def check_unmapped_message (start_trim : Nat) : String :=
  "More than 99 percent of your data is unmapped.\nPlease check that your --start_trim "
    ++ toString start_trim
    ++ " parameter is correct and that your tags file is properly formatted"

/-- `processing.check_unmapped`: returns `some msg` when the guard fires
(Python calls `exit(msg)`), `none` otherwise.  The float comparison
`sum(no_match.values()) / total_reads > float(0.99)` is modelled over
exact rationals. -/
def check_unmapped (no_match : List (String × Nat)) (total_reads : Nat)
    (start_trim : Nat) : Option String :=
  if ((counterValuesSum no_match : ℚ) / (total_reads : ℚ)) > (0.99 : ℚ) then
    some (check_unmapped_message start_trim)
  else
    none

/-- Contract of `pybktree.BKTree.find(item, n)` over a tree built from
`whitelist` with the Hamming metric: all `(distance, member)` pairs with
distance at most `n`.  (Third-party library, modelled from its
documented contract; the whitelist is a Python set, modelled as a list
without duplicate keys.) -/
def bktree_find (whitelist : List String) (item : String) (n : Nat) : List (Nat × String) :=
  (whitelist.map (fun w => (hamming w item, w))).filter (fun p => p.1 ≤ n)

/-- `true_to_false[k].append(v)` on a `defaultdict(list)` modelled as a
total function to lists. -/
def appendAt (f : String → List String) (k v : String) : String → List String :=
  fun x => if x = k then f k ++ [v] else f x

/-- The local `candidates` of the `find_true_to_false_map` loop body:
whitelist members within the collapsing threshold whose distance is
strictly greater than 0. -/
def whitelistCandidates (whitelist : List String) (cell_barcode : String)
    (collapsing_threshold : Nat) : List String :=
  ((bktree_find whitelist cell_barcode collapsing_threshold).filter
    (fun p => 0 < p.1)).map Prod.snd

/-- Loop body of `processing.find_true_to_false_map`: skip whitelisted
barcodes; compute the candidates; record the barcode under the unique
candidate (`len(candidates) == 1`); drop it otherwise. -/
def find_true_to_false_step (whitelist : List String) (collapsing_threshold : Nat)
    (true_to_false : String → List String) (cell_barcode : String) : String → List String :=
  if cell_barcode ∈ whitelist then true_to_false
  else
    match whitelistCandidates whitelist cell_barcode collapsing_threshold with
    | [white_cell_str] => appendAt true_to_false white_cell_str cell_barcode
    | _ => true_to_false

/-- `processing.find_true_to_false_map` (run with one process): fold the
loop body over the observed cell barcodes, starting from an empty
`defaultdict(list)`. -/
def find_true_to_false_map (whitelist : List String) (cell_barcodes : List String)
    (collapsing_threshold : Nat) : String → List String :=
  cell_barcodes.foldl (find_true_to_false_step whitelist collapsing_threshold) (fun _ => [])

/-- A per-tag UMI `Counter` (UMI → read count), as an association list
in insertion order. -/
abbrev UMICounter := List (String × Nat)

/-- One chunk's per-cell results: tag name → UMI counter. -/
abbrev CellChunk := List (String × UMICounter)

/-- One chunk's mapped results: cell barcode → per-tag UMI counters. -/
abbrev ChunkMapped := List (String × CellChunk)

/-- A per-chunk result of `map_reads`: mapped results plus the unmapped
tally. -/
abbrev ChunkResult := ChunkMapped × List (String × Nat)

/-- The four accumulators built by `processing.merge_results`.  The
merged nested counter and the three `Counter`s are modelled as total
functions with default value 0 (the claims compare them as
maps/counters). -/
@[ext]
structure MergeState where
  merged_results : String → String → String → Nat
  umis_per_cell : String → Nat
  reads_per_cell : String → Nat
  merged_no_match : String → Nat

/-- `f[k] += v` on a Counter modelled as a function. -/
def addAt (f : String → Nat) (k : String) (v : Nat) : String → Nat :=
  fun a => if a = k then f a + v else f a

/-- `f[cb][tag][u] += v` on the nested merged counter. -/
def addAt3 (f : String → String → String → Nat) (cb tag u : String) (v : Nat) :
    String → String → String → Nat :=
  fun a b c => if a = cb ∧ b = tag ∧ c = u then f a b c + v else f a b c

/-- One iteration of the innermost loop of `merge_results`, for one UMI
entry `(UMI, cnt)` of the chunk counter whose total length is
`counter_len`:
`merged_results[cb][TAG][UMI] += mapped[cb][TAG][UMI]`,
`umis_per_cell[cb] += len(mapped[cb][TAG])`,
`reads_per_cell[cb] += mapped[cb][TAG][UMI]`. -/
def merge_umi_step (cell_barcode TAG : String) (counter_len : Nat) (UMI : String) (cnt : Nat)
    (s : MergeState) : MergeState :=
  { s with
    merged_results := addAt3 s.merged_results cell_barcode TAG UMI cnt
    umis_per_cell := addAt s.umis_per_cell cell_barcode counter_len
    reads_per_cell := addAt s.reads_per_cell cell_barcode cnt }

/-- `for UMI in mapped[cell_barcode][TAG]: ...` (the length of the
iterated counter is constant during the loop). -/
def merge_tag_umis (cell_barcode TAG : String) (counter_len : Nat) :
    UMICounter → MergeState → MergeState
  | [], s => s
  | (u, cnt) :: rest, s =>
    merge_tag_umis cell_barcode TAG counter_len rest
      (merge_umi_step cell_barcode TAG counter_len u cnt s)

/-- `if mapped[cell_barcode][TAG]:` followed by the UMI loop. -/
def merge_tag (cell_barcode TAG : String) (counter : UMICounter) (s : MergeState) : MergeState :=
  if counter.isEmpty then s
  else merge_tag_umis cell_barcode TAG counter.length counter s

/-- `for TAG in mapped[cell_barcode]: ...`.  (Creating the empty
`defaultdict(Counter)` entry for an unseen cell barcode is invisible in
the function model of the merged counters.) -/
def merge_cell (cell_barcode : String) (tags : CellChunk) (s : MergeState) : MergeState :=
  tags.foldl (fun s' e => merge_tag cell_barcode e.1 e.2 s') s

/-- `merged_no_match.update(unmapped)`: add the chunk's unmapped counts
pointwise. -/
def merge_no_match (s : MergeState) (unmapped : List (String × Nat)) : MergeState :=
  { s with merged_no_match := unmapped.foldl (fun f e => addAt f e.1 e.2) s.merged_no_match }

/-- One iteration of `for chunk in parallel_results`. -/
def merge_chunk (s : MergeState) (chunk : ChunkResult) : MergeState :=
  merge_no_match (chunk.1.foldl (fun s' ce => merge_cell ce.1 ce.2 s') s) chunk.2

/-- The empty initial accumulators of `merge_results`. -/
def initMergeState : MergeState :=
  ⟨fun _ _ _ => 0, fun _ => 0, fun _ => 0, fun _ => 0⟩

/-- `processing.merge_results`. -/
def merge_results (parallel_results : List ChunkResult) : MergeState :=
  parallel_results.foldl merge_chunk initMergeState

/-- Pointwise sum of two merge states. -/
def addState (s t : MergeState) : MergeState :=
  ⟨fun a b c => s.merged_results a b c + t.merged_results a b c,
   fun a => s.umis_per_cell a + t.umis_per_cell a,
   fun a => s.reads_per_cell a + t.reads_per_cell a,
   fun a => s.merged_no_match a + t.merged_no_match a⟩

/-- The chemistry definition: 1-based inclusive read-1 layout plus the
read-2 trim start. -/
structure ChemistryDef where
  cell_barcode_start : Nat
  cell_barcode_end : Nat
  umi_barcode_start : Nat
  umi_barcode_end : Nat
  R2_trim_start : Nat
deriving DecidableEq

/-- The fields of `args` consumed by `io.write_chunks_to_disk`.
`chunk_size = 0` models a falsy (unset) chunk size; `first_n = none`
models the infinite default of the `--first_n` cap. -/
structure StageArgs where
  chunk_size : Nat
  n_threads : Nat
  temp_path : String
  debug : Bool
  max_error : Nat
  sliding_window : Bool
  first_n : Option Nat
deriving DecidableEq

/-- The `mapping_input` named tuple registered for each chunk file. -/
structure MappingInput where
  filename : String
  tags : List Tag
  debug : Bool
  maximum_distance : Nat
  sliding_window : Bool
deriving DecidableEq

/-- The mutable state of `write_chunks_to_disk`.  `opens` is the trace
of paths passed to `open(..., "w")` (chunk-file creations, in order)
and `writes` the trace of `(current file, row)` write calls — these
model the file-system effects. -/
structure StageState where
  num_chunk : Nat
  input_queue : List MappingInput
  temp_files : List String
  R1_too_short : Nat
  R2_too_short : Nat
  total_reads_written : Nat
  total_reads : Nat
  opens : List String
  writes : List (String × String)
deriving DecidableEq

/-- The loop-invariant context of the staging loops. -/
structure StageCtx where
  chem : ChemistryDef
  R2_max_length : Nat
  chunk_size : Nat
  first_n : Option Nat
  cwd : String
  tags : List Tag
  debug : Bool
  max_error : Nat
  sliding_window : Bool

/-- `os.path.join` of an absolute directory and a relative name. -/
def pathJoin (dir name : String) : String := dir ++ "/" ++ name

/-- `str.startswith`: whether `pre` is a prefix of `s`. -/
def pyStartsWith (s pre : String) : Bool := pre.data.isPrefixOf s.data

/-- `os.path.abspath` for already-normalized paths: a relative path is
resolved against the current working directory. -/
def absPath (cwd p : String) : String := if pyStartsWith p "/" then p else pathJoin cwd p

/-- Python `round` (half-to-even) of the exact rational `num / den`. -/
def pyRound (num den : Nat) : Nat :=
  let q := num / den
  let r := num % den
  if 2 * r < den then q
  else if den < 2 * r then q + 1
  else if q % 2 = 0 then q else q + 1

/-- `islice(it, 1, None, 4)`: every fourth element starting at index 1
(the sequence line of each 4-line FASTQ record). -/
def everyFourth {α : Type} : List α → List α
  | [] => []
  | [a] => [a]
  | [a, _] => [a]
  | [a, _, _] => [a]
  | a :: _ :: _ :: _ :: rest => a :: everyFourth rest

/-- `secondlines = islice(zip(textfile1, textfile2), 1, None, 4)`:
the zipped raw lines (newlines included) of the two FASTQ files,
restricted to the sequence lines. -/
def secondlines (lines1 lines2 : List String) : List (String × String) :=
  everyFourth ((lines1.zip lines2).drop 1)

/-- Outcome of the per-read-pair body of the staging loop. -/
inductive ReadStep where
  | skipR1
  | skipR2
  | wrote (row : String)
deriving DecidableEq

/-- The chunk row written for one accepted read pair:
`"{},{},{}\n".format(read1_sliced[barcode_slice], read1_sliced[umi_slice], read2_sliced)`
where `read1_sliced = read1[cell_barcode_start-1 : umi_barcode_end]`,
the barcode and UMI slices are re-applied to `read1_sliced`, and
`read2_sliced = read2[R2_trim_start : R2_max_length + R2_trim_start]`
(read 2 is never stripped, so its trailing newline can survive). -/
def make_row (chem : ChemistryDef) (R2_max_length : Nat) (read1_stripped read2 : String) :
    String :=
  let read1_sliced := pySlice read1_stripped (chem.cell_barcode_start - 1) chem.umi_barcode_end
  pySlice read1_sliced (chem.cell_barcode_start - 1) chem.cell_barcode_end
    ++ "," ++ pySlice read1_sliced (chem.umi_barcode_start - 1) chem.umi_barcode_end
    ++ "," ++ pySlice read2 chem.R2_trim_start (R2_max_length + chem.R2_trim_start)
    ++ "\n"

/-- The two length checks of the staging loop body: read 1 is stripped
before its check, read 2 is tested raw (its trailing newline counts
toward its length). -/
def classify_read (chem : ChemistryDef) (R2_max_length : Nat) (read1 read2 : String) :
    ReadStep :=
  if (pyStrip read1).length < chem.umi_barcode_end then ReadStep.skipR1
  else if read2.length < R2_max_length then ReadStep.skipR2
  else ReadStep.wrote (make_row chem R2_max_length (pyStrip read1) read2)

/-- `total_reads_written >= args.first_n` (false when no cap is set). -/
def capReached (first_n : Option Nat) (total : Nat) : Bool :=
  match first_n with
  | none => false
  | some n => n ≤ total

/-- The `mapping_input` appended for the current chunk file. -/
def mkMappingInput (ctx : StageCtx) (filename : String) : MappingInput :=
  ⟨filename, ctx.tags, ctx.debug, ctx.max_error, ctx.sliding_window⟩

/-- The `for read1, read2 in secondlines` loop of `write_chunks_to_disk`
over one file pair.  Returns the state and the current `temp_filename`.
After a write, when `reads_written % chunk_size == 0` the chunk rotates:
the current file is registered as a mapping task, `num_chunk` is
incremented and a new file named `"temp_{num_chunk}"` is opened — note
the rotated name is NOT joined with the temp directory in the source,
so it is resolved against the current working directory.  The `first_n`
check runs after the rotation check and `break`s out of this (inner)
loop only. -/
def stage_loop (ctx : StageCtx) :
    List (String × String) → Nat → String → StageState → StageState × String
  | [], _, temp_filename, st => (st, temp_filename)
  | (read1, read2) :: rest, reads_written, temp_filename, st =>
    match classify_read ctx.chem ctx.R2_max_length read1 read2 with
    | ReadStep.skipR1 =>
      stage_loop ctx rest reads_written temp_filename
        { st with R1_too_short := st.R1_too_short + 1 }
    | ReadStep.skipR2 =>
      stage_loop ctx rest reads_written temp_filename
        { st with R2_too_short := st.R2_too_short + 1 }
    | ReadStep.wrote row =>
      if (reads_written + 1) % ctx.chunk_size = 0 then
        if capReached ctx.first_n (st.total_reads_written + 1) then
          ({ st with
              writes := st.writes ++ [(temp_filename, row)]
              total_reads_written := st.total_reads_written + 1
              input_queue := st.input_queue ++ [mkMappingInput ctx temp_filename]
              num_chunk := st.num_chunk + 1
              opens := st.opens ++ ["temp_" ++ toString (st.num_chunk + 1)]
              temp_files := st.temp_files
                ++ [absPath ctx.cwd ("temp_" ++ toString (st.num_chunk + 1))]
              total_reads := st.total_reads_written + 1 },
            "temp_" ++ toString (st.num_chunk + 1))
        else
          stage_loop ctx rest 0 ("temp_" ++ toString (st.num_chunk + 1))
            { st with
              writes := st.writes ++ [(temp_filename, row)]
              total_reads_written := st.total_reads_written + 1
              input_queue := st.input_queue ++ [mkMappingInput ctx temp_filename]
              num_chunk := st.num_chunk + 1
              opens := st.opens ++ ["temp_" ++ toString (st.num_chunk + 1)]
              temp_files := st.temp_files
                ++ [absPath ctx.cwd ("temp_" ++ toString (st.num_chunk + 1))] }
      else
        if capReached ctx.first_n (st.total_reads_written + 1) then
          ({ st with
              writes := st.writes ++ [(temp_filename, row)]
              total_reads_written := st.total_reads_written + 1
              total_reads := st.total_reads_written + 1 },
            temp_filename)
        else
          stage_loop ctx rest (reads_written + 1) temp_filename
            { st with
              writes := st.writes ++ [(temp_filename, row)]
              total_reads_written := st.total_reads_written + 1 }

/-- One iteration of `for read1_path, read2_path in zip(...)`: open the
initial chunk file `os.path.join(temp_path, "temp_{num_chunk}")`, run
the inner loop, then register the final (possibly partial) chunk file
as one more mapping task. -/
def stage_file_pair (ctx : StageCtx) (temp_path : String) (st : StageState)
    (pair : List String × List String) : StageState :=
  let temp_filename := pathJoin temp_path ("temp_" ++ toString st.num_chunk)
  let res := stage_loop ctx (secondlines pair.1 pair.2) 0 temp_filename
    { st with
      opens := st.opens ++ [temp_filename]
      temp_files := st.temp_files ++ [absPath ctx.cwd temp_filename] }
  { res.1 with input_queue := res.1.input_queue ++ [mkMappingInput ctx res.2] }

/-- `if not args.chunk_size: args.chunk_size = round(total_reads / args.n_threads) + 1`. -/
def effChunkSize (args : StageArgs) (total_reads : Nat) : Nat :=
  if args.chunk_size = 0 then pyRound total_reads args.n_threads + 1
  else args.chunk_size

/-- The loop context assembled by `write_chunks_to_disk` from its
arguments. -/
def mkStageCtx (args : StageArgs) (cwd : String) (R2_max_length total_reads : Nat)
    (chem : ChemistryDef) (tags : List Tag) : StageCtx :=
  ⟨chem, R2_max_length, effChunkSize args total_reads, args.first_n, cwd, tags,
    args.debug, args.max_error, args.sliding_window⟩

/-- `io.write_chunks_to_disk`: the staging stage over a list of file
pairs, each given as its two raw line lists (lines keep their trailing
newline, as when iterating a text-mode file).
`temp_path = os.path.abspath(args.temp_path)`. -/
def write_chunks_to_disk (args : StageArgs) (cwd : String)
    (file_pairs : List (List String × List String)) (R2_max_length : Nat)
    (total_reads : Nat) (chem : ChemistryDef) (named_tuples_tags_map : List Tag) :
    StageState :=
  file_pairs.foldl
    (fun st pair =>
      stage_file_pair (mkStageCtx args cwd R2_max_length total_reads chem named_tuples_tags_map)
        (absPath cwd args.temp_path) st pair)
    ⟨0, [], [], 0, 0, 0, total_reads, [], []⟩

/-- The number of read pairs of a staged sequence-line list that pass
both length checks (and are therefore written). -/
def validCount (chem : ChemistryDef) (R2_max_length : Nat)
    (reads : List (String × String)) : Nat :=
  (reads.filter (fun p =>
    decide (chem.umi_barcode_end ≤ (pyStrip p.1).length)
      && decide (R2_max_length ≤ p.2.length))).length

/-- Concrete chemistry for the staging evaluations: barcode = position
1, UMI = position 2, no read-2 trim. -/
def chemX : ChemistryDef := ⟨1, 1, 2, 2, 0⟩

/-- One FASTQ record (read 1) used by the staging evaluations. -/
def fastqR1 : List String := ["@a\n", "ACGT\n", "+\n", "IIII\n"]

/-- One FASTQ record (read 2) used by the staging evaluations. -/
def fastqR2 : List String := ["@a\n", "TTTT\n", "+\n", "IIII\n"]

/-- Arguments with `first_n = 5` for the C7 counterexample run:
chunk size 5, temp dir `/tmp/ct`, cap 1. -/
def argsC7 : StageArgs := ⟨5, 1, "/tmp/ct", false, 1, false, some 1⟩

/-- The C7 counterexample run: `first_n = 1` but two input file pairs,
each holding one valid read pair. -/
def stC7 : StageState :=
  write_chunks_to_disk argsC7 "/wd" [(fastqR1, fastqR2), (fastqR1, fastqR2)] 2 2 chemX []

/-- Arguments for the C9 run: chunk size 1 (rotate after every row),
temp dir `/tmp/ct`, no cap. -/
def argsC9 : StageArgs := ⟨1, 1, "/tmp/ct", false, 1, false, none⟩

/-- Two FASTQ records (read 1) for the C9 rotation run. -/
def fastqR1x2 : List String :=
  ["@a\n", "ACGT\n", "+\n", "IIII\n", "@b\n", "GGGG\n", "+\n", "IIII\n"]

/-- Two FASTQ records (read 2) for the C9 rotation run. -/
def fastqR2x2 : List String :=
  ["@a\n", "TTTT\n", "+\n", "IIII\n", "@b\n", "CCCC\n", "+\n", "IIII\n"]

/-- The C9 run: one file pair with two valid read pairs and chunk size
1, so the chunk rotates after the first row. -/
def stC9 : StageState :=
  write_chunks_to_disk argsC9 "/wd" [(fastqR1x2, fastqR2x2)] 2 2 chemX []

/-- One cell's per-tag counters in `final_results`.  The flag records
whether the Python dict carries a default factory: cells built by
`merge_results` are `defaultdict(Counter)` (missing tags auto-create an
empty counter), cells created inside `collapse_cells` are
`defaultdict()` with no factory (missing tags raise `KeyError`). -/
structure CellEntry where
  isDefaultCounter : Bool
  tags : List (String × UMICounter)
deriving DecidableEq

/-- `final_results`: cell barcode → per-tag UMI counters. -/
abbrev FinalResults := List (String × CellEntry)

/-- `counter[k]` with Counter's default of 0. -/
def counterVal (c : UMICounter) (u : String) : Nat := (c.lookup u).getD 0

/-- `umis_per_cell[k]` with Counter's default of 0. -/
def umisVal (l : List (String × Nat)) (k : String) : Nat := (l.lookup k).getD 0

/-- The nested value `final_results[cb][TAG][u]`, defaulting to 0. -/
def frVal (fr : FinalResults) (cb TAG u : String) : Nat :=
  match fr.lookup cb with
  | none => 0
  | some cell =>
    match cell.tags.lookup TAG with
    | none => 0
    | some c => counterVal c u

/-- `c[u] += n` on a Counter: update the existing key in place, else
append it. -/
def counterAdd (c : UMICounter) (u : String) (n : Nat) : UMICounter :=
  if (c.lookup u).isSome then
    c.map (fun e => if e.1 = u then (e.1, e.2 + n) else e)
  else c ++ [(u, n)]

/-- `c.update(d)` on Counters: add each of `d`'s counts into `c`, in
`d`'s iteration order. -/
def counterUpdate (c d : UMICounter) : UMICounter :=
  d.foldl (fun acc e => counterAdd acc e.1 e.2) c

/-- `dict.pop(k)`: the value and the dict without that key, or `none`
(Python raises `KeyError`) when the key is missing. -/
def listPop {β : Type} (l : List (String × β)) (k : String) :
    Option (β × List (String × β)) :=
  match l.lookup k with
  | some v => some (v, l.eraseP (fun e => e.1 == k))
  | none => none

/-- Assignment `d[k] = v` for a key already present. -/
def listSet {β : Type} (l : List (String × β)) (k : String) (v : β) :
    List (String × β) :=
  l.map (fun e => if e.1 = k then (e.1, v) else e)

/-- `final_results[real_barcode][TAG].update(cnts)`: look up the real
barcode's cell (`KeyError` → `none`), then its counter for `TAG`; a
missing tag auto-creates an empty counter only under
`defaultdict(Counter)`, otherwise it raises (`none`). -/
def updateRealTag (fr : FinalResults) (real TAG : String) (cnts : UMICounter) :
    Option FinalResults :=
  match fr.lookup real with
  | none => none
  | some cell =>
    match cell.tags.lookup TAG with
    | some c0 =>
      some (listSet fr real ⟨cell.isDefaultCounter, listSet cell.tags TAG (counterUpdate c0 cnts)⟩)
    | none =>
      if cell.isDefaultCounter then
        some (listSet fr real ⟨cell.isDefaultCounter, cell.tags ++ [(TAG, counterUpdate [] cnts)]⟩)
      else none

/-- `for TAG in temp.keys(): final_results[real_barcode][TAG].update(temp[TAG])`. -/
def updateRealTags (real : String) :
    List (String × UMICounter) → FinalResults → Option FinalResults
  | [], fr => some fr
  | (TAG, cnts) :: rest, fr =>
    match updateRealTag fr real TAG cnts with
    | none => none
    | some fr' => updateRealTags real rest fr'

/-- One iteration of `for fake_barcode in true_to_false[real_barcode]`:
pop the fake barcode's cell, count one corrected barcode, merge each of
its tags' counters into the real barcode's cell, move its per-cell UMI
total to the real barcode. -/
def collapse_fake (real : String)
    (st : List (String × Nat) × FinalResults × Nat) (fake : String) :
    Option (List (String × Nat) × FinalResults × Nat) :=
  match listPop st.2.1 fake with
  | none => none
  | some (temp, fr') =>
    match updateRealTags real temp.tags fr' with
    | none => none
    | some fr'' =>
      match listPop st.1 fake with
      | none => none
      | some (tv, umis') =>
        some (counterAdd umis' real tv, fr'', st.2.2 + 1)

/-- Fold `collapse_fake` over the fake barcodes of one group. -/
def collapse_fakes (real : String) :
    List String → (List (String × Nat) × FinalResults × Nat) →
      Option (List (String × Nat) × FinalResults × Nat)
  | [], st => some st
  | fake :: rest, st =>
    match collapse_fake real st fake with
    | none => none
    | some st' => collapse_fakes real rest st'

/-- One iteration of `for real_barcode in true_to_false`: if the real
barcode is missing from the results, create a factory-less dict holding
a zero-initialized counter for every tag of `ab_map`, then fold in the
group's fake barcodes. -/
def collapse_group (ab_map : List String)
    (st : List (String × Nat) × FinalResults × Nat) (real : String)
    (fakes : List String) :
    Option (List (String × Nat) × FinalResults × Nat) :=
  collapse_fakes real fakes
    (st.1,
      (if (st.2.1.lookup real).isSome then st.2.1
        else st.2.1 ++ [(real, ⟨false, ab_map.map (fun TAG => (TAG, []))⟩)]),
      st.2.2)

/-- Fold `collapse_group` over the true-to-false mapping. -/
def collapse_groups (ab_map : List String) :
    List (String × List String) → (List (String × Nat) × FinalResults × Nat) →
      Option (List (String × Nat) × FinalResults × Nat)
  | [], st => some st
  | (real, fakes) :: rest, st =>
    match collapse_group ab_map st real fakes with
    | none => none
    | some st' => collapse_groups ab_map rest st'

/-- `processing.collapse_cells`: returns
`(umis_per_cell, final_results, corrected_barcodes)` (with
`corrected_barcodes` starting at 0), or `none` when the Python code
would raise. -/
def collapse_cells (true_to_false : List (String × List String))
    (umis_per_cell : List (String × Nat)) (final_results : FinalResults)
    (ab_map : List String) : Option (List (String × Nat) × FinalResults × Nat) :=
  collapse_groups ab_map true_to_false (umis_per_cell, final_results, 0)

/-- Association-list well-formedness of one cell: tag keys are distinct
and every counter has distinct UMI keys (Python dict keys are unique). -/
def CellWF (cell : CellEntry) : Prop :=
  (cell.tags.map Prod.fst).Nodup ∧ ∀ e ∈ cell.tags, (e.2.map Prod.fst).Nodup

/-- Well-formedness of the whole result structure. -/
def FRWF (fr : FinalResults) : Prop :=
  (fr.map Prod.fst).Nodup ∧ ∀ e ∈ fr, CellWF e.2

/-- Total count carried by the entries of counter `d` whose key is `x`
(equal to `d[x]` when `d` has distinct keys). -/
def sumAtKey (d : UMICounter) (x : String) : Nat :=
  ((d.filter (fun e => decide (e.1 = x))).map Prod.snd).sum

/-- `tags[T][u]` with default 0 at both levels. -/
def tagsVal (tags : List (String × UMICounter)) (T u : String) : Nat :=
  counterVal ((tags.lookup T).getD []) u

/-- The `{id, sequence}` record of one `ordered_tags_map` entry. -/
structure TagInfo where
  id : Nat
  sequence : String
deriving DecidableEq

/-- `m[r, c] = v` on a dok-style matrix modelled as a total function. -/
def setEntry (m : Nat → Nat → Nat) (r c v : Nat) : Nat → Nat → Nat :=
  fun a b => if a = r ∧ b = c then v else m a b

/-- Inner loop `for j, TAG in enumerate(final_results[cell_barcode])` of
`generate_sparse_matrices` for the cell in column `i`: skip tags with an
empty counter; for the rest, look the tag up in `ordered_tags_map`
(`KeyError` → `none`), check the row index against the matrix shape
(dok `IndexError` → `none`), then set the UMI entry to the number of
distinct UMIs and the read entry to the sum of all UMI counts. -/
def gen_cell (ordered_tags_map : List (String × TagInfo)) (n_tags i : Nat) :
    List (String × UMICounter) → (Nat → Nat → Nat) × (Nat → Nat → Nat) →
      Option ((Nat → Nat → Nat) × (Nat → Nat → Nat))
  | [], ms => some ms
  | (TAG, counter) :: rest, ms =>
    if counter.isEmpty then gen_cell ordered_tags_map n_tags i rest ms
    else
      match ordered_tags_map.lookup TAG with
      | none => none
      | some info =>
        if info.id < n_tags then
          gen_cell ordered_tags_map n_tags i rest
            (setEntry ms.1 info.id i counter.length,
             setEntry ms.2 info.id i (counter.map Prod.snd).sum)
        else none

/-- Outer loop `for i, cell_barcode in enumerate(top_cells)`
(`final_results[cell_barcode]` raises for a missing cell → `none`). -/
def gen_cells (ordered_tags_map : List (String × TagInfo)) (n_tags : Nat)
    (final_results : FinalResults) :
    List String → Nat → (Nat → Nat → Nat) × (Nat → Nat → Nat) →
      Option ((Nat → Nat → Nat) × (Nat → Nat → Nat))
  | [], _, ms => some ms
  | cb :: rest, i, ms =>
    match final_results.lookup cb with
    | none => none
    | some cell =>
      match gen_cell ordered_tags_map n_tags i cell.tags ms with
      | none => none
      | some ms' => gen_cells ordered_tags_map n_tags final_results rest (i + 1) ms'

/-- `processing.generate_sparse_matrices`: two `(tag count × cell count)`
dok matrices (modelled as total functions whose implicit default is 0),
filled cell by cell. -/
def generate_sparse_matrices (final_results : FinalResults)
    (ordered_tags_map : List (String × TagInfo)) (top_cells : List String) :
    Option ((Nat → Nat → Nat) × (Nat → Nat → Nat)) :=
  gen_cells ordered_tags_map ordered_tags_map.length final_results top_cells 0
    (fun _ _ => 0, fun _ _ => 0)

/-- Row `r` receives a value in the column of cell `cb`: some tag of
that cell has a non-empty counter and maps to id `r`. -/
def cellHit (final_results : FinalResults) (ordered_tags_map : List (String × TagInfo))
    (cb : String) (r : Nat) : Prop :=
  ∃ cell t cnt info, final_results.lookup cb = some cell ∧ (t, cnt) ∈ cell.tags
    ∧ cnt ≠ [] ∧ ordered_tags_map.lookup t = some info ∧ info.id = r

/-- Entry `(r, c)` of the generated matrices is written: column `c` is a
valid position of `top_cells` and its cell hits row `r`. -/
def tagHit (final_results : FinalResults) (ordered_tags_map : List (String × TagInfo))
    (top_cells : List String) (r c : Nat) : Prop :=
  ∃ hc : c < top_cells.length,
    cellHit final_results ordered_tags_map (top_cells.get ⟨c, hc⟩) r

theorem find_best_match_go_eq (TAG_seq : String) (tags : List Tag) (bs : Nat) (bm : String) :
    find_best_match_go TAG_seq tags bs bm =
      ((tags.find? fun t =>
          decide (hamming t.sequence (pyTake TAG_seq t.sequence.length) ≤ bs)).map
        Tag.name).getD bm := by
  induction tags with
  | nil => rfl
  | cons t ts ih =>
    by_cases h0 : hamming t.sequence (pyTake TAG_seq t.sequence.length) = 0
    · simp [find_best_match_go, List.find?, h0]
    · by_cases hle : hamming t.sequence (pyTake TAG_seq t.sequence.length) ≤ bs
      · simp [find_best_match_go, List.find?, h0, hle]
      · simp [find_best_match_go, List.find?, h0, hle, ih]

/-- C1: in bounded-distance matching, for every trimmed read and ordered
tag panel (each tag no longer than the read, so that the Python Hamming
distance of the tag against the equally-truncated read is defined), a
tag at distance 0 is returned immediately, otherwise the first tag in
panel order at distance at most the configured maximum distance is
returned immediately without scanning later tags for a strictly smaller
distance, and if no tag qualifies the sentinel `"unmapped"` is
returned: the result is exactly the first qualifying tag in panel
order, or `"unmapped"` when there is none. -/
theorem find_best_match_first_within_threshold (TAG_seq : String) (tags : List Tag)
    (maximum_distance : Nat)
    (hlen : ∀ t ∈ tags, t.sequence.length ≤ TAG_seq.length) :
    find_best_match TAG_seq tags maximum_distance =
      ((tags.find? fun t =>
          decide (hamming t.sequence (pyTake TAG_seq t.sequence.length) ≤ maximum_distance)).map
        Tag.name).getD "unmapped" := by
  exact find_best_match_go_eq TAG_seq tags maximum_distance "unmapped"

theorem find_best_match_first_within_threshold_witness :
    (∀ t ∈ [Tag.mk "tagA" "AAAA", Tag.mk "tagB" "AAAG"],
        t.sequence.length ≤ ("AAAT" : String).length)
    ∧ find_best_match "AAAT" [Tag.mk "tagA" "AAAA", Tag.mk "tagB" "AAAG"] 1 =
        (([Tag.mk "tagA" "AAAA", Tag.mk "tagB" "AAAG"].find? fun t =>
            decide (hamming t.sequence (pyTake "AAAT" t.sequence.length) ≤ 1)).map
          Tag.name).getD "unmapped" :=
  ⟨by decide, find_best_match_first_within_threshold "AAAT" _ 1 (by decide)⟩

theorem mem_appendAt (f : String → List String) (k v w cb : String) :
    cb ∈ appendAt f k v w ↔ cb ∈ f w ∨ (w = k ∧ cb = v) := by
  unfold appendAt
  split <;> rename_i h <;> simp [h]

theorem mem_find_true_to_false_step (whitelist : List String) (d : Nat)
    (acc : String → List String) (b w cb : String) :
    cb ∈ find_true_to_false_step whitelist d acc b w ↔
      cb ∈ acc w ∨ (cb = b ∧ cb ∉ whitelist ∧ whitelistCandidates whitelist cb d = [w]) := by
  unfold find_true_to_false_step
  by_cases hb : b ∈ whitelist
  · simp only [if_pos hb]
    constructor
    · exact Or.inl
    · rintro (h | ⟨rfl, hnb, _⟩)
      · exact h
      · exact absurd hb hnb
  · simp only [if_neg hb]
    rcases hc : whitelistCandidates whitelist b d with _ | ⟨x, _ | ⟨y, rest⟩⟩
    · constructor
      · exact Or.inl
      · rintro (h | ⟨rfl, _, hw⟩)
        · exact h
        · rw [hc] at hw
          exact absurd hw (by simp)
    · rw [mem_appendAt]
      constructor
      · rintro (h | ⟨rfl, rfl⟩)
        · exact Or.inl h
        · exact Or.inr ⟨rfl, hb, hc⟩
      · rintro (h | ⟨rfl, _, hw⟩)
        · exact Or.inl h
        · rw [hc] at hw
          obtain rfl : x = w := by simpa using hw
          exact Or.inr ⟨rfl, rfl⟩
    · constructor
      · exact Or.inl
      · rintro (h | ⟨rfl, _, hw⟩)
        · exact h
        · rw [hc] at hw
          exact absurd hw (by simp)

theorem mem_find_true_to_false_foldl (whitelist : List String) (d : Nat)
    (cell_barcodes : List String) :
    ∀ (acc : String → List String) (w cb : String),
      cb ∈ (cell_barcodes.foldl (find_true_to_false_step whitelist d) acc) w ↔
        cb ∈ acc w ∨ (cb ∈ cell_barcodes ∧ cb ∉ whitelist ∧
          whitelistCandidates whitelist cb d = [w]) := by
  induction cell_barcodes with
  | nil => simp
  | cons b bs ih =>
    intro acc w cb
    rw [List.foldl_cons, ih, mem_find_true_to_false_step]
    constructor
    · rintro ((h | ⟨rfl, h1, h2⟩) | ⟨h0, h1, h2⟩)
      · exact Or.inl h
      · exact Or.inr ⟨List.mem_cons_self _ _, h1, h2⟩
      · exact Or.inr ⟨List.mem_cons_of_mem _ h0, h1, h2⟩
    · rintro (h | ⟨h0, h1, h2⟩)
      · exact Or.inl (Or.inl h)
      · rcases List.mem_cons.mp h0 with rfl | h0
        · exact Or.inl (Or.inr ⟨rfl, h1, h2⟩)
        · exact Or.inr ⟨h0, h1, h2⟩

/-- C3: in provided-whitelist barcode assignment (all barcodes of one
common length, the whitelist being a duplicate-free set, as in the
program), an observed barcode appears in the resulting true-to-false
mapping under true barcode `w` exactly when it is not itself
whitelisted and its candidate set — whitelist members within the
collapsing distance at distance strictly greater than 0 — is exactly
the singleton `[w]`; barcodes already whitelisted, or with zero or two
or more candidates, are absent from the mapping. -/
theorem find_true_to_false_map_spec (whitelist cell_barcodes : List String)
    (collapsing_threshold : Nat) (L : Nat)
    (hw : whitelist.Nodup)
    (hlenW : ∀ w ∈ whitelist, w.length = L)
    (hlenB : ∀ b ∈ cell_barcodes, b.length = L) :
    ∀ w cb,
      cb ∈ find_true_to_false_map whitelist cell_barcodes collapsing_threshold w ↔
        (cb ∈ cell_barcodes ∧ cb ∉ whitelist ∧
          whitelistCandidates whitelist cb collapsing_threshold = [w]) := by
  intro w cb
  rw [find_true_to_false_map, mem_find_true_to_false_foldl]
  simp

theorem find_true_to_false_map_spec_witness :
    ((["AAAAA", "TTTTT"] : List String).Nodup
      ∧ (∀ w ∈ (["AAAAA", "TTTTT"] : List String), w.length = 5)
      ∧ (∀ b ∈ (["AAAAT"] : List String), b.length = 5))
    ∧ (∀ w cb,
        cb ∈ find_true_to_false_map ["AAAAA", "TTTTT"] ["AAAAT"] 1 w ↔
          (cb ∈ (["AAAAT"] : List String) ∧ cb ∉ (["AAAAA", "TTTTT"] : List String) ∧
            whitelistCandidates ["AAAAA", "TTTTT"] cb 1 = [w])) :=
  ⟨⟨by decide, by decide, by decide⟩,
    find_true_to_false_map_spec ["AAAAA", "TTTTT"] ["AAAAT"] 1 5
      (by decide) (by decide) (by decide)⟩

/-- C5: the unmapped-rate guard aborts iff the unmapped total divided by
the total read count is strictly greater than 0.99; with 99 unmapped of
100 reads it does not fire, with 100 of 100 it fires, and the message it
prints names the configured read-2 trim-start value. -/
theorem check_unmapped_guard (no_match : List (String × Nat)) (total_reads start_trim : Nat)
    (htotal : 0 < total_reads) :
    ((check_unmapped no_match total_reads start_trim).isSome ↔
        ((counterValuesSum no_match : ℚ) / (total_reads : ℚ) > (0.99 : ℚ)))
    ∧ check_unmapped [("seq", 99)] 100 start_trim = none
    ∧ check_unmapped [("seq", 100)] 100 start_trim =
        some ("More than 99 percent of your data is unmapped.\nPlease check that your --start_trim "
          ++ toString start_trim
          ++ " parameter is correct and that your tags file is properly formatted") := by
  refine ⟨?_, ?_, ?_⟩
  · unfold check_unmapped
    split <;> rename_i h <;> simp [h]
  · unfold check_unmapped
    norm_num [counterValuesSum]
  · unfold check_unmapped
    norm_num [counterValuesSum, check_unmapped_message]

theorem check_unmapped_guard_witness :
    0 < 100
    ∧ (((check_unmapped [("AAAA", 3)] 100 7).isSome ↔
          ((counterValuesSum [("AAAA", 3)] : ℚ) / (100 : ℚ) > (0.99 : ℚ)))
        ∧ check_unmapped [("seq", 99)] 100 7 = none
        ∧ check_unmapped [("seq", 100)] 100 7 =
            some ("More than 99 percent of your data is unmapped.\nPlease check that your --start_trim "
              ++ toString 7
              ++ " parameter is correct and that your tags file is properly formatted")) :=
  ⟨by decide, check_unmapped_guard [("AAAA", 3)] 100 7 (by decide)⟩

theorem addState_init_left (s : MergeState) : addState initMergeState s = s := by
  unfold addState initMergeState
  ext <;> simp

theorem addState_comm (s t : MergeState) : addState s t = addState t s := by
  unfold addState
  ext <;> dsimp only <;> omega

theorem addState_assoc (s t u : MergeState) :
    addState (addState s t) u = addState s (addState t u) := by
  unfold addState
  ext <;> dsimp only <;> omega

theorem merge_umi_step_addState (cb TAG : String) (cl : Nat) (u : String) (cnt : Nat)
    (s t : MergeState) :
    merge_umi_step cb TAG cl u cnt (addState s t)
      = addState (merge_umi_step cb TAG cl u cnt s) t := by
  unfold merge_umi_step addState addAt addAt3
  ext <;> dsimp only <;> split <;> omega

theorem merge_tag_umis_addState (cb TAG : String) (cl : Nat) (l : UMICounter) :
    ∀ (s t : MergeState),
      merge_tag_umis cb TAG cl l (addState s t) = addState (merge_tag_umis cb TAG cl l s) t := by
  induction l with
  | nil => intro s t; rfl
  | cons e rest ih =>
    intro s t
    rw [show merge_tag_umis cb TAG cl (e :: rest) (addState s t)
          = merge_tag_umis cb TAG cl rest (merge_umi_step cb TAG cl e.1 e.2 (addState s t)) from rfl,
        merge_umi_step_addState, ih]
    rfl

theorem merge_tag_addState (cb TAG : String) (counter : UMICounter) (s t : MergeState) :
    merge_tag cb TAG counter (addState s t) = addState (merge_tag cb TAG counter s) t := by
  unfold merge_tag
  split
  · rfl
  · exact merge_tag_umis_addState cb TAG counter.length counter s t

theorem merge_cell_addState (cb : String) (tags : CellChunk) :
    ∀ (s t : MergeState),
      merge_cell cb tags (addState s t) = addState (merge_cell cb tags s) t := by
  induction tags with
  | nil => intro s t; rfl
  | cons e rest ih =>
    intro s t
    rw [show merge_cell cb (e :: rest) (addState s t)
          = merge_cell cb rest (merge_tag cb e.1 e.2 (addState s t)) from rfl,
        merge_tag_addState, ih]
    rfl

theorem foldl_addAt_apply (l : List (String × Nat)) :
    ∀ (f : String → Nat) (a : String),
      l.foldl (fun g e => addAt g e.1 e.2) f a
        = f a + l.foldl (fun g e => addAt g e.1 e.2) (fun _ => 0) a := by
  induction l with
  | nil => intro f a; simp
  | cons p rest ih =>
    intro f a
    simp only [List.foldl_cons]
    rw [ih (addAt f p.1 p.2) a, ih (addAt (fun _ => 0) p.1 p.2) a]
    simp only [addAt]
    by_cases h : a = p.1
    · simp only [if_pos h]
      omega
    · simp only [if_neg h]
      omega

theorem merge_no_match_addState (unmapped : List (String × Nat)) (s t : MergeState) :
    merge_no_match (addState s t) unmapped = addState (merge_no_match s unmapped) t := by
  unfold merge_no_match addState
  ext a b c
  · rfl
  · rfl
  · rfl
  · dsimp only
    rw [foldl_addAt_apply unmapped
        (fun x => s.merged_no_match x + t.merged_no_match x) a,
      foldl_addAt_apply unmapped s.merged_no_match a]
    omega

theorem merge_cells_fold_addState (l : ChunkMapped) :
    ∀ (s t : MergeState),
      l.foldl (fun s' ce => merge_cell ce.1 ce.2 s') (addState s t)
        = addState (l.foldl (fun s' ce => merge_cell ce.1 ce.2 s') s) t := by
  induction l with
  | nil => intro s t; rfl
  | cons e rest ih =>
    intro s t
    rw [List.foldl_cons, List.foldl_cons, merge_cell_addState, ih]

theorem merge_chunk_addState (chunk : ChunkResult) (s t : MergeState) :
    merge_chunk (addState s t) chunk = addState (merge_chunk s chunk) t := by
  unfold merge_chunk
  rw [merge_cells_fold_addState, merge_no_match_addState]

theorem merge_chunk_delta (s : MergeState) (c : ChunkResult) :
    merge_chunk s c = addState s (merge_chunk initMergeState c) := by
  conv_lhs => rw [← addState_init_left s]
  rw [merge_chunk_addState, addState_comm]

theorem merge_chunk_left_comm (s : MergeState) (a b : ChunkResult) :
    merge_chunk (merge_chunk s a) b = merge_chunk (merge_chunk s b) a := by
  rw [merge_chunk_delta (merge_chunk s a) b, merge_chunk_delta s a,
    merge_chunk_delta (merge_chunk s b) a, merge_chunk_delta s b,
    addState_assoc, addState_assoc,
    addState_comm (merge_chunk initMergeState a) (merge_chunk initMergeState b)]

theorem merge_results_foldl_perm {l₁ l₂ : List ChunkResult} (h : l₁.Perm l₂) :
    ∀ s : MergeState, l₁.foldl merge_chunk s = l₂.foldl merge_chunk s := by
  induction h with
  | nil => intro s; rfl
  | cons x _ ih => intro s; rw [List.foldl_cons, List.foldl_cons, ih]
  | swap x y l =>
    intro s
    rw [List.foldl_cons, List.foldl_cons, List.foldl_cons, List.foldl_cons,
      merge_chunk_left_comm]
  | trans _ _ ih1 ih2 => intro s; rw [ih1, ih2]

/-- C8: result merging is order-independent — for every list of
per-chunk results and every permutation of it, `merge_results` yields
the same merged nested counts, per-cell UMI totals, per-cell read
totals, and unmapped tally (equality of the counters as maps). -/
theorem merge_results_order_independent (l₁ l₂ : List ChunkResult) (h : l₁.Perm l₂) :
    merge_results l₁ = merge_results l₂ :=
  merge_results_foldl_perm h initMergeState

theorem merge_results_order_independent_witness :
    merge_results
        [([("c1", [("t1", [("u1", 2)])])], [("GGGG", 1)]),
         ([("c2", [("t2", [("u2", 3), ("u3", 1)])])], [])]
      = merge_results
        [([("c2", [("t2", [("u2", 3), ("u3", 1)])])], []),
         ([("c1", [("t1", [("u1", 2)])])], [("GGGG", 1)])] :=
  merge_results_order_independent _ _
    (List.Perm.swap ([("c2", [("t2", [("u2", 3), ("u3", 1)])])], [])
      ([("c1", [("t1", [("u1", 2)])])], [("GGGG", 1)]) [])

theorem counter_filter_sum (u : String) (cnt : Nat) :
    ∀ (l : UMICounter), (l.map Prod.fst).Nodup → (u, cnt) ∈ l →
      ((l.filter (fun e => decide (e.1 = u))).map Prod.snd).sum = cnt := by
  intro l
  induction l with
  | nil => intro _ hmem; cases hmem
  | cons a as ih =>
    intro hwf hmem
    rw [List.map_cons, List.nodup_cons] at hwf
    rcases List.mem_cons.mp hmem with heq | hmem'
    · have hnone : as.filter (fun x => decide (x.1 = u)) = [] := by
        rw [List.filter_eq_nil_iff]
        intro x hx
        simp only [decide_eq_true_eq]
        intro hEq
        refine hwf.1 ?_
        rw [show a.1 = u from by rw [← heq]]
        exact List.mem_map.mpr ⟨x, hx, hEq⟩
      rw [← heq]
      simp [List.filter_cons, hnone]
    · have hne : a.1 ≠ u := by
        intro hEq
        refine hwf.1 ?_
        rw [hEq]
        exact List.mem_map.mpr ⟨(u, cnt), hmem', rfl⟩
      have hfil : (a :: as).filter (fun x => decide (x.1 = u))
          = as.filter (fun x => decide (x.1 = u)) := by
        simp [List.filter_cons, hne]
      rw [hfil]
      exact ih hwf.2 hmem'

theorem merge_umi_step_umis (cb TAG : String) (cl : Nat) (u0 : String) (cnt : Nat)
    (s : MergeState) :
    (merge_umi_step cb TAG cl u0 cnt s).umis_per_cell cb = s.umis_per_cell cb + cl := by
  unfold merge_umi_step addAt
  dsimp only
  rw [if_pos rfl]

theorem merge_umi_step_reads (cb TAG : String) (cl : Nat) (u0 : String) (cnt : Nat)
    (s : MergeState) :
    (merge_umi_step cb TAG cl u0 cnt s).reads_per_cell cb = s.reads_per_cell cb + cnt := by
  unfold merge_umi_step addAt
  dsimp only
  rw [if_pos rfl]

theorem merge_umi_step_merged (cb TAG : String) (cl : Nat) (u0 : String) (cnt : Nat)
    (s : MergeState) (u : String) :
    (merge_umi_step cb TAG cl u0 cnt s).merged_results cb TAG u
      = s.merged_results cb TAG u + (if u = u0 then cnt else 0) := by
  unfold merge_umi_step addAt3
  dsimp only
  by_cases h : u = u0
  · rw [if_pos ⟨rfl, rfl, h⟩, if_pos h]
  · rw [if_neg (fun hc => h hc.2.2), if_neg h]
    omega

theorem merge_tag_umis_fields (cb TAG : String) (cl : Nat) :
    ∀ (l : UMICounter) (s : MergeState),
      (merge_tag_umis cb TAG cl l s).umis_per_cell cb
          = s.umis_per_cell cb + cl * l.length
      ∧ (merge_tag_umis cb TAG cl l s).reads_per_cell cb
          = s.reads_per_cell cb + (l.map Prod.snd).sum
      ∧ ∀ u, (merge_tag_umis cb TAG cl l s).merged_results cb TAG u
          = s.merged_results cb TAG u + ((l.filter (fun e => decide (e.1 = u))).map Prod.snd).sum := by
  intro l
  induction l with
  | nil => intro s; refine ⟨by simp [merge_tag_umis], by simp [merge_tag_umis], ?_⟩
           intro u; simp [merge_tag_umis]
  | cons e rest ih =>
    intro s
    obtain ⟨ih1, ih2, ih3⟩ := ih (merge_umi_step cb TAG cl e.1 e.2 s)
    refine ⟨?_, ?_, ?_⟩
    · rw [show merge_tag_umis cb TAG cl (e :: rest) s
            = merge_tag_umis cb TAG cl rest (merge_umi_step cb TAG cl e.1 e.2 s) from rfl,
        ih1, merge_umi_step_umis, List.length_cons]
      ring
    · rw [show merge_tag_umis cb TAG cl (e :: rest) s
            = merge_tag_umis cb TAG cl rest (merge_umi_step cb TAG cl e.1 e.2 s) from rfl,
        ih2, merge_umi_step_reads, List.map_cons, List.sum_cons]
      ring
    · intro u
      rw [show merge_tag_umis cb TAG cl (e :: rest) s
            = merge_tag_umis cb TAG cl rest (merge_umi_step cb TAG cl e.1 e.2 s) from rfl,
        ih3 u, merge_umi_step_merged]
      by_cases hu : e.1 = u
      · subst hu
        rw [if_pos rfl]
        have hfil : (e :: rest).filter (fun x => decide (x.1 = e.1))
            = e :: rest.filter (fun x => decide (x.1 = e.1)) := by
          simp [List.filter_cons]
        rw [hfil, List.map_cons, List.sum_cons]
        ring
      · rw [if_neg (fun h => hu h.symm)]
        have hfil : (e :: rest).filter (fun x => decide (x.1 = u))
            = rest.filter (fun x => decide (x.1 = u)) := by
          simp [List.filter_cons, hu]
        rw [hfil]
        omega

/-- C2: in result merging, for every per-chunk (cell, tag) group whose
UMI counter holds `k` distinct UMIs, `merge_results` (through its
per-tag step `merge_tag`) increments the per-cell UMI total by `k` once
for each of the `k` UMIs iterated — contributing exactly `k * k` — while
the per-cell read total is incremented by each UMI's read count and
each UMI's count is added into the global nested counter. -/
theorem merge_tag_counts (cb TAG : String) (counter : UMICounter) (s : MergeState)
    (hwf : (counter.map Prod.fst).Nodup) :
    (merge_tag cb TAG counter s).umis_per_cell cb
        = s.umis_per_cell cb + counter.length * counter.length
    ∧ (merge_tag cb TAG counter s).reads_per_cell cb
        = s.reads_per_cell cb + (counter.map Prod.snd).sum
    ∧ ∀ u cnt, (u, cnt) ∈ counter →
        (merge_tag cb TAG counter s).merged_results cb TAG u
          = s.merged_results cb TAG u + cnt := by
  rcases counter with _ | ⟨e, rest⟩
  · refine ⟨by simp [merge_tag], by simp [merge_tag], ?_⟩
    rintro u cnt hmem
    cases hmem
  · have hrw : merge_tag cb TAG (e :: rest) s
        = merge_tag_umis cb TAG (e :: rest).length (e :: rest) s := rfl
    obtain ⟨h1, h2, h3⟩ := merge_tag_umis_fields cb TAG (e :: rest).length (e :: rest) s
    rw [hrw]
    refine ⟨h1, h2, ?_⟩
    intro u cnt hmem
    rw [h3 u, counter_filter_sum u cnt (e :: rest) hwf hmem]

theorem merge_tag_counts_witness :
    ((([("u1", 2), ("u2", 3)] : UMICounter).map Prod.fst).Nodup)
    ∧ ((merge_tag "c" "t" [("u1", 2), ("u2", 3)] initMergeState).umis_per_cell "c"
          = initMergeState.umis_per_cell "c" + 2 * 2
       ∧ (merge_tag "c" "t" [("u1", 2), ("u2", 3)] initMergeState).reads_per_cell "c"
          = initMergeState.reads_per_cell "c" + (([("u1", 2), ("u2", 3)] : UMICounter).map Prod.snd).sum
       ∧ ∀ u cnt, (u, cnt) ∈ ([("u1", 2), ("u2", 3)] : UMICounter) →
          (merge_tag "c" "t" [("u1", 2), ("u2", 3)] initMergeState).merged_results "c" "t" u
            = initMergeState.merged_results "c" "t" u + cnt) :=
  ⟨by decide, merge_tag_counts "c" "t" [("u1", 2), ("u2", 3)] initMergeState (by decide)⟩

theorem validCount_cons (chem : ChemistryDef) (R2max : Nat) (r1 r2 : String)
    (rest : List (String × String)) :
    validCount chem R2max ((r1, r2) :: rest)
      = validCount chem R2max rest
        + (if chem.umi_barcode_end ≤ (pyStrip r1).length ∧ R2max ≤ r2.length
            then 1 else 0) := by
  unfold validCount
  rw [List.filter_cons]
  by_cases h1 : chem.umi_barcode_end ≤ (pyStrip r1).length
  · by_cases h2 : R2max ≤ r2.length
    · simp [h1, h2]
    · simp [h1, h2]
  · simp [h1]

theorem classify_read_skipR1_lt (chem : ChemistryDef) (R2max : Nat) (r1 r2 : String)
    (h : classify_read chem R2max r1 r2 = ReadStep.skipR1) :
    (pyStrip r1).length < chem.umi_barcode_end := by
  unfold classify_read at h
  by_cases h1 : (pyStrip r1).length < chem.umi_barcode_end
  · exact h1
  · rw [if_neg h1] at h
    by_cases h2 : r2.length < R2max
    · rw [if_pos h2] at h
      cases h
    · rw [if_neg h2] at h
      cases h

theorem classify_read_skipR2_facts (chem : ChemistryDef) (R2max : Nat) (r1 r2 : String)
    (h : classify_read chem R2max r1 r2 = ReadStep.skipR2) :
    chem.umi_barcode_end ≤ (pyStrip r1).length ∧ r2.length < R2max := by
  unfold classify_read at h
  by_cases h1 : (pyStrip r1).length < chem.umi_barcode_end
  · rw [if_pos h1] at h
    cases h
  · rw [if_neg h1] at h
    by_cases h2 : r2.length < R2max
    · exact ⟨Nat.le_of_not_lt h1, h2⟩
    · rw [if_neg h2] at h
      cases h

theorem classify_read_wrote_facts (chem : ChemistryDef) (R2max : Nat) (r1 r2 row : String)
    (h : classify_read chem R2max r1 r2 = ReadStep.wrote row) :
    chem.umi_barcode_end ≤ (pyStrip r1).length ∧ R2max ≤ r2.length := by
  unfold classify_read at h
  by_cases h1 : (pyStrip r1).length < chem.umi_barcode_end
  · rw [if_pos h1] at h
    cases h
  · rw [if_neg h1] at h
    by_cases h2 : r2.length < R2max
    · rw [if_pos h2] at h
      cases h
    · exact ⟨Nat.le_of_not_lt h1, Nat.le_of_not_lt h2⟩

theorem stage_loop_cap (ctx : StageCtx) (n : Nat) (hn : ctx.first_n = some n) :
    ∀ (reads : List (String × String)) (rw0 : Nat) (fn : String) (st : StageState),
      st.total_reads_written < n →
      n ≤ st.total_reads_written + validCount ctx.chem ctx.R2_max_length reads →
      (stage_loop ctx reads rw0 fn st).1.total_reads_written = n
      ∧ (stage_loop ctx reads rw0 fn st).1.total_reads = n
      ∧ (stage_loop ctx reads rw0 fn st).1.writes.length
          = st.writes.length + (n - st.total_reads_written) := by
  intro reads
  induction reads with
  | nil =>
    intro rw0 fn st hlt hge
    exfalso
    have hz : validCount ctx.chem ctx.R2_max_length [] = 0 := rfl
    omega
  | cons p rest ih =>
    intro rw0 fn st hlt hge
    obtain ⟨r1, r2⟩ := p
    rcases hcl : classify_read ctx.chem ctx.R2_max_length r1 r2 with _ | _ | row
    · have hfact := classify_read_skipR1_lt ctx.chem ctx.R2_max_length r1 r2 hcl
      have hvc := validCount_cons ctx.chem ctx.R2_max_length r1 r2 rest
      have hif : (if ctx.chem.umi_barcode_end ≤ (pyStrip r1).length
            ∧ ctx.R2_max_length ≤ r2.length then 1 else 0) = 0 := by
        rw [if_neg]
        rintro ⟨ha, -⟩
        omega
      have hstep : stage_loop ctx ((r1, r2) :: rest) rw0 fn st
          = stage_loop ctx rest rw0 fn { st with R1_too_short := st.R1_too_short + 1 } := by
        simp only [stage_loop]
        rw [hcl]
      rw [hstep]
      exact ih rw0 fn _ hlt (by dsimp only; rw [hvc, hif] at hge; omega)
    · have hfact := classify_read_skipR2_facts ctx.chem ctx.R2_max_length r1 r2 hcl
      have hvc := validCount_cons ctx.chem ctx.R2_max_length r1 r2 rest
      have hif : (if ctx.chem.umi_barcode_end ≤ (pyStrip r1).length
            ∧ ctx.R2_max_length ≤ r2.length then 1 else 0) = 0 := by
        rw [if_neg]
        rintro ⟨-, hb⟩
        omega
      have hstep : stage_loop ctx ((r1, r2) :: rest) rw0 fn st
          = stage_loop ctx rest rw0 fn { st with R2_too_short := st.R2_too_short + 1 } := by
        simp only [stage_loop]
        rw [hcl]
      rw [hstep]
      exact ih rw0 fn _ hlt (by dsimp only; rw [hvc, hif] at hge; omega)
    · have hfact := classify_read_wrote_facts ctx.chem ctx.R2_max_length r1 r2 row hcl
      have hvc := validCount_cons ctx.chem ctx.R2_max_length r1 r2 rest
      have hif : (if ctx.chem.umi_barcode_end ≤ (pyStrip r1).length
            ∧ ctx.R2_max_length ≤ r2.length then 1 else 0) = 1 :=
        if_pos ⟨hfact.1, hfact.2⟩
      have hge' : n ≤ st.total_reads_written + 1 + validCount ctx.chem ctx.R2_max_length rest := by
        rw [hvc, hif] at hge
        omega
      by_cases hrot : (rw0 + 1) % ctx.chunk_size = 0
      · by_cases hcap : n ≤ st.total_reads_written + 1
        · have hcapb : capReached ctx.first_n (st.total_reads_written + 1) = true := by
            rw [hn]
            simp only [capReached, decide_eq_true_eq]
            exact hcap
          have hstep : stage_loop ctx ((r1, r2) :: rest) rw0 fn st
              = ({ st with
                  writes := st.writes ++ [(fn, row)]
                  total_reads_written := st.total_reads_written + 1
                  input_queue := st.input_queue ++ [mkMappingInput ctx fn]
                  num_chunk := st.num_chunk + 1
                  opens := st.opens ++ ["temp_" ++ toString (st.num_chunk + 1)]
                  temp_files := st.temp_files
                    ++ [absPath ctx.cwd ("temp_" ++ toString (st.num_chunk + 1))]
                  total_reads := st.total_reads_written + 1 },
                "temp_" ++ toString (st.num_chunk + 1)) := by
            simp only [stage_loop]
            rw [hcl]
            simp only [if_pos hrot, hcapb, if_true]
          rw [hstep]
          refine ⟨by dsimp only; omega, by dsimp only; omega, ?_⟩
          dsimp only
          rw [List.length_append]
          simp only [List.length_cons, List.length_nil]
          omega
        · have hcapb : capReached ctx.first_n (st.total_reads_written + 1) = false := by
            rw [hn]
            simp only [capReached, decide_eq_false_iff_not]
            exact hcap
          have hstep : stage_loop ctx ((r1, r2) :: rest) rw0 fn st
              = stage_loop ctx rest 0 ("temp_" ++ toString (st.num_chunk + 1))
                { st with
                  writes := st.writes ++ [(fn, row)]
                  total_reads_written := st.total_reads_written + 1
                  input_queue := st.input_queue ++ [mkMappingInput ctx fn]
                  num_chunk := st.num_chunk + 1
                  opens := st.opens ++ ["temp_" ++ toString (st.num_chunk + 1)]
                  temp_files := st.temp_files
                    ++ [absPath ctx.cwd ("temp_" ++ toString (st.num_chunk + 1))] } := by
            simp only [stage_loop]
            rw [hcl]
            simp only [if_pos hrot, hcapb, Bool.false_eq_true, if_false]
          rw [hstep]
          obtain ⟨ha, hb, hc⟩ := ih 0 ("temp_" ++ toString (st.num_chunk + 1))
            { st with
              writes := st.writes ++ [(fn, row)]
              total_reads_written := st.total_reads_written + 1
              input_queue := st.input_queue ++ [mkMappingInput ctx fn]
              num_chunk := st.num_chunk + 1
              opens := st.opens ++ ["temp_" ++ toString (st.num_chunk + 1)]
              temp_files := st.temp_files
                ++ [absPath ctx.cwd ("temp_" ++ toString (st.num_chunk + 1))] }
            (by dsimp only; omega) (by dsimp only; exact hge')
          refine ⟨ha, hb, ?_⟩
          rw [hc]
          dsimp only
          rw [List.length_append]
          simp only [List.length_cons, List.length_nil]
          omega
      · by_cases hcap : n ≤ st.total_reads_written + 1
        · have hcapb : capReached ctx.first_n (st.total_reads_written + 1) = true := by
            rw [hn]
            simp only [capReached, decide_eq_true_eq]
            exact hcap
          have hstep : stage_loop ctx ((r1, r2) :: rest) rw0 fn st
              = ({ st with
                  writes := st.writes ++ [(fn, row)]
                  total_reads_written := st.total_reads_written + 1
                  total_reads := st.total_reads_written + 1 },
                fn) := by
            simp only [stage_loop]
            rw [hcl]
            simp only [if_neg hrot, hcapb, if_true]
          rw [hstep]
          refine ⟨by dsimp only; omega, by dsimp only; omega, ?_⟩
          dsimp only
          rw [List.length_append]
          simp only [List.length_cons, List.length_nil]
          omega
        · have hcapb : capReached ctx.first_n (st.total_reads_written + 1) = false := by
            rw [hn]
            simp only [capReached, decide_eq_false_iff_not]
            exact hcap
          have hstep : stage_loop ctx ((r1, r2) :: rest) rw0 fn st
              = stage_loop ctx rest (rw0 + 1) fn
                { st with
                  writes := st.writes ++ [(fn, row)]
                  total_reads_written := st.total_reads_written + 1 } := by
            simp only [stage_loop]
            rw [hcl]
            simp only [if_neg hrot, hcapb, Bool.false_eq_true, if_false]
          rw [hstep]
          obtain ⟨ha, hb, hc⟩ := ih (rw0 + 1) fn
            { st with
              writes := st.writes ++ [(fn, row)]
              total_reads_written := st.total_reads_written + 1 }
            (by dsimp only; omega) (by dsimp only; exact hge')
          refine ⟨ha, hb, ?_⟩
          rw [hc]
          dsimp only
          rw [List.length_append]
          simp only [List.length_cons, List.length_nil]
          omega

/-- C7 (amended): with a single input file pair, a configured cap
`first_n ≥ 1`, and at least `first_n` valid read pairs available,
staging stops once the cumulative number of written rows reaches
`first_n` — even mid-file — so that exactly `first_n` rows are written,
and the achieved total is reported as the new effective total read
count.  (With multiple input file pairs the `break` exits only the
current file pair, so later file pairs write additional rows — see the
counterexample.) -/
theorem write_chunks_first_n_single_pair (args : StageArgs) (cwd : String)
    (lines1 lines2 : List String) (R2_max_length total_reads0 : Nat)
    (chem : ChemistryDef) (tags : List Tag) (n : Nat)
    (hn : args.first_n = some n) (h1 : 1 ≤ n)
    (hv : n ≤ validCount chem R2_max_length (secondlines lines1 lines2)) :
    (write_chunks_to_disk args cwd [(lines1, lines2)] R2_max_length total_reads0
        chem tags).writes.length = n
    ∧ (write_chunks_to_disk args cwd [(lines1, lines2)] R2_max_length total_reads0
        chem tags).total_reads = n := by
  obtain ⟨ha, hb, hc⟩ := stage_loop_cap
    (mkStageCtx args cwd R2_max_length total_reads0 chem tags) n hn
    (secondlines lines1 lines2) 0
    (pathJoin (absPath cwd args.temp_path) ("temp_" ++ toString (0 : Nat)))
    ⟨0, [], [absPath cwd (pathJoin (absPath cwd args.temp_path)
        ("temp_" ++ toString (0 : Nat)))], 0, 0, 0, total_reads0,
      [pathJoin (absPath cwd args.temp_path) ("temp_" ++ toString (0 : Nat))], []⟩
    h1 (by dsimp only [mkStageCtx]; omega)
  refine ⟨?_, hb⟩
  have hproj : (write_chunks_to_disk args cwd [(lines1, lines2)] R2_max_length total_reads0
        chem tags).writes.length
      = (stage_loop (mkStageCtx args cwd R2_max_length total_reads0 chem tags)
          (secondlines lines1 lines2) 0
          (pathJoin (absPath cwd args.temp_path) ("temp_" ++ toString (0 : Nat)))
          ⟨0, [], [absPath cwd (pathJoin (absPath cwd args.temp_path)
              ("temp_" ++ toString (0 : Nat)))], 0, 0, 0, total_reads0,
            [pathJoin (absPath cwd args.temp_path) ("temp_" ++ toString (0 : Nat))],
            []⟩).1.writes.length := rfl
  rw [hproj, hc]
  dsimp only
  simp only [List.length_nil]
  omega

theorem write_chunks_first_n_single_pair_witness :
    ((⟨5, 1, "/tmp/ct", false, 1, false, some 1⟩ : StageArgs).first_n = some 1
      ∧ 1 ≤ 1
      ∧ 1 ≤ validCount chemX 2 (secondlines fastqR1 fastqR2))
    ∧ ((write_chunks_to_disk ⟨5, 1, "/tmp/ct", false, 1, false, some 1⟩ "/wd"
          [(fastqR1, fastqR2)] 2 1 chemX []).writes.length = 1
      ∧ (write_chunks_to_disk ⟨5, 1, "/tmp/ct", false, 1, false, some 1⟩ "/wd"
          [(fastqR1, fastqR2)] 2 1 chemX []).total_reads = 1) :=
  ⟨⟨rfl, by decide, by decide⟩,
    write_chunks_first_n_single_pair ⟨5, 1, "/tmp/ct", false, 1, false, some 1⟩ "/wd"
      fastqR1 fastqR2 2 1 chemX [] 1 rfl (by decide) (by decide)⟩

/-- C7 counterexample: with `first_n = 1` and two input file pairs each
containing one valid read pair, staging writes 2 rows in total and
reports 2 as the effective total read count — not exactly `first_n`:
the `break` only exits the inner per-file loop. -/
theorem write_chunks_first_n_multifile_cx :
    stC7.writes.length = 2 ∧ stC7.total_reads = 2
      ∧ ¬(stC7.writes.length = 1 ∧ stC7.total_reads = 1) := by
  decide

/-- C9: the staging code opens the initial chunk file of each file pair
inside the configured temporary directory, but every chunk file opened
after a `chunk_size` rotation is named `"temp_{num_chunk}"` without
joining the temporary directory, so it is created relative to the
current working directory instead: with temp dir `/tmp/ct`, cwd `/wd`,
chunk size 1 and two valid reads, the opened paths are
`/tmp/ct/temp_0` and then the bare `temp_1`, recorded in `temp_files`
as `/wd/temp_1`. -/
theorem write_chunks_rotation_escapes_temp_dir :
    stC9.opens = ["/tmp/ct/temp_0", "temp_1", "temp_2"]
    ∧ stC9.temp_files = ["/tmp/ct/temp_0", "/wd/temp_1", "/wd/temp_2"]
    ∧ pyStartsWith "temp_1" "/tmp/ct" = false
    ∧ pyStartsWith "/wd/temp_1" "/tmp/ct" = false := by
  decide

theorem pyStrip_newline_helper (s : String) :
    (s ++ "\n").length = s.length + 1 := by
  rw [String.length_append]
  rfl

/-- C10: read 2 is never stripped of its trailing newline before use:
for every read pair whose raw read-2 line is `seq ++ "\n"` with `seq`
holding exactly `R2_max_length - 1` bases (and read 1 long enough), the
length test compares the raw line length (newline included) against
`R2_max_length`, so the pair is not counted toward `R2_too_short` and
is written, and whenever `R2_trim_start < R2_max_length` the trimmed
tag read `read2[R2_trim_start : R2_trim_start + R2_max_length]` placed
in the written row contains the newline character. -/
theorem read2_newline_not_stripped (chem : ChemistryDef) (R2_max_length : Nat)
    (read1 seq : String)
    (hlen : seq.length = R2_max_length - 1)
    (hpos : 1 ≤ R2_max_length)
    (h1 : chem.umi_barcode_end ≤ (pyStrip read1).length) :
    classify_read chem R2_max_length read1 (seq ++ "\n")
        = ReadStep.wrote (make_row chem R2_max_length (pyStrip read1) (seq ++ "\n"))
    ∧ (chem.R2_trim_start < R2_max_length →
        '\n' ∈ (pySlice (seq ++ "\n") chem.R2_trim_start
          (R2_max_length + chem.R2_trim_start)).data) := by
  have hlen2 : (seq ++ "\n").length = R2_max_length := by
    rw [pyStrip_newline_helper]
    omega
  constructor
  · unfold classify_read
    rw [if_neg (by omega), if_neg (by omega)]
  · intro htrim
    have hdata : (seq ++ "\n").data = seq.data ++ ['\n'] := rfl
    have hdlen : (seq ++ "\n").data.length = R2_max_length := hlen2
    show '\n' ∈ (((seq ++ "\n").data.take (R2_max_length + chem.R2_trim_start)).drop
      chem.R2_trim_start)
    rw [List.take_of_length_le (by omega), hdata,
      List.drop_append_of_le_length (by
        have : seq.data.length = R2_max_length - 1 := hlen
        omega)]
    exact List.mem_append_right _ (by simp)

theorem read2_newline_not_stripped_witness :
    ((("T" : String).length = 2 - 1) ∧ 1 ≤ 2
      ∧ chemX.umi_barcode_end ≤ (pyStrip "ACGT\n").length)
    ∧ (classify_read chemX 2 "ACGT\n" ("T" ++ "\n")
          = ReadStep.wrote (make_row chemX 2 (pyStrip "ACGT\n") ("T" ++ "\n"))
      ∧ (chemX.R2_trim_start < 2 →
          '\n' ∈ (pySlice ("T" ++ "\n") chemX.R2_trim_start (2 + chemX.R2_trim_start)).data)) :=
  ⟨⟨by decide, by decide, by decide⟩,
    read2_newline_not_stripped chemX 2 "ACGT\n" "T" (by decide) (by decide) (by decide)⟩

theorem lookup_cons_self {β : Type} (k : String) (v : β) (l : List (String × β)) :
    ((k, v) :: l).lookup k = some v := by
  simp [List.lookup]

theorem lookup_cons_ne {β : Type} (a k : String) (v : β) (l : List (String × β))
    (h : a ≠ k) :
    ((k, v) :: l).lookup a = l.lookup a := by
  have hb : (a == k) = false := by
    simpa using h
  simp [List.lookup, hb]

theorem mem_of_lookup {β : Type} :
    ∀ {l : List (String × β)} {k : String} {v : β}, l.lookup k = some v → (k, v) ∈ l := by
  intro l
  induction l with
  | nil => intro k v h; cases h
  | cons e rest ih =>
    obtain ⟨a, b⟩ := e
    intro k v h
    by_cases hk : k = a
    · subst hk
      rw [lookup_cons_self] at h
      injection h with h
      subst h
      exact List.mem_cons_self _ _
    · rw [lookup_cons_ne _ _ _ _ hk] at h
      exact List.mem_cons_of_mem _ (ih h)

theorem lookup_isSome_iff {β : Type} :
    ∀ (l : List (String × β)) (k : String),
      (l.lookup k).isSome ↔ k ∈ l.map Prod.fst := by
  intro l
  induction l with
  | nil => intro k; simp [List.lookup]
  | cons e rest ih =>
    obtain ⟨a, b⟩ := e
    intro k
    by_cases hk : k = a
    · subst hk
      rw [lookup_cons_self]
      simp
    · rw [lookup_cons_ne _ _ _ _ hk, List.map_cons]
      simp only [List.mem_cons]
      rw [ih]
      constructor
      · exact Or.inr
      · rintro (h | h)
        · exact absurd h hk
        · exact h

theorem lookup_eq_none_iff {β : Type} (l : List (String × β)) (k : String) :
    l.lookup k = none ↔ k ∉ l.map Prod.fst := by
  rw [← lookup_isSome_iff, Option.not_isSome_iff_eq_none]

theorem lookup_append {β : Type} :
    ∀ (l1 l2 : List (String × β)) (k : String),
      (l1 ++ l2).lookup k = (l1.lookup k).or (l2.lookup k) := by
  intro l1
  induction l1 with
  | nil => intro l2 k; simp [List.lookup, Option.or]
  | cons e rest ih =>
    obtain ⟨a, b⟩ := e
    intro l2 k
    by_cases hk : k = a
    · subst hk
      rw [List.cons_append, lookup_cons_self, lookup_cons_self]
      rfl
    · rw [List.cons_append, lookup_cons_ne _ _ _ _ hk, lookup_cons_ne _ _ _ _ hk, ih]

theorem eraseP_lookup_self {β : Type} :
    ∀ (l : List (String × β)) (k : String), (l.map Prod.fst).Nodup →
      (l.eraseP (fun e => e.1 == k)).lookup k = none := by
  intro l
  induction l with
  | nil => intro k _; rfl
  | cons e rest ih =>
    obtain ⟨a, b⟩ := e
    intro k hnd
    rw [List.map_cons, List.nodup_cons] at hnd
    by_cases hk : a = k
    · rw [List.eraseP_cons_of_pos (by simpa using hk)]
      rw [lookup_eq_none_iff]
      rw [← hk]
      exact hnd.1
    · rw [List.eraseP_cons_of_neg (by simpa using hk)]
      rw [lookup_cons_ne _ _ _ _ (fun hx => hk hx.symm)]
      exact ih k hnd.2

theorem eraseP_lookup_ne {β : Type} :
    ∀ (l : List (String × β)) (k x : String), x ≠ k →
      (l.eraseP (fun e => e.1 == k)).lookup x = l.lookup x := by
  intro l
  induction l with
  | nil => intro k x _; rfl
  | cons e rest ih =>
    obtain ⟨a, b⟩ := e
    intro k x hxk
    by_cases hak : a = k
    · rw [List.eraseP_cons_of_pos (by simpa using hak)]
      rw [lookup_cons_ne _ _ _ _ (by rw [hak]; exact hxk)]
    · rw [List.eraseP_cons_of_neg (by simpa using hak)]
      by_cases hxa : x = a
      · subst hxa
        rw [lookup_cons_self, lookup_cons_self]
      · rw [lookup_cons_ne _ _ _ _ hxa, lookup_cons_ne _ _ _ _ hxa]
        exact ih k x hxk

theorem eraseP_keys_nodup {β : Type} (l : List (String × β)) (k : String)
    (hnd : (l.map Prod.fst).Nodup) :
    ((l.eraseP (fun e => e.1 == k)).map Prod.fst).Nodup :=
  hnd.sublist ((l.eraseP_sublist).map Prod.fst)

theorem listSet_keys {β : Type} (l : List (String × β)) (k : String) (v : β) :
    (listSet l k v).map Prod.fst = l.map Prod.fst := by
  simp only [listSet, List.map_map]
  congr 1
  funext e
  by_cases h : e.1 = k <;> simp [h]

theorem listSet_lookup_self {β : Type} :
    ∀ (l : List (String × β)) (k : String) (v : β), (l.lookup k).isSome →
      (listSet l k v).lookup k = some v := by
  intro l
  induction l with
  | nil => intro k v h; cases h
  | cons e rest ih =>
    obtain ⟨a, b⟩ := e
    intro k v hk
    by_cases hka : k = a
    · subst hka
      have hstep : listSet ((k, b) :: rest) k v = (k, v) :: listSet rest k v := by
        simp [listSet]
      rw [hstep]
      exact lookup_cons_self _ _ _
    · have hak : ¬a = k := fun h => hka h.symm
      have hstep : listSet ((a, b) :: rest) k v = (a, b) :: listSet rest k v := by
        simp [listSet, hak]
      rw [hstep, lookup_cons_ne _ _ _ _ hka]
      rw [lookup_cons_ne _ _ _ _ hka] at hk
      exact ih k v hk

theorem listSet_lookup_ne {β : Type} :
    ∀ (l : List (String × β)) (k x : String) (v : β), x ≠ k →
      (listSet l k v).lookup x = l.lookup x := by
  intro l
  induction l with
  | nil => intro k x v _; rfl
  | cons e rest ih =>
    obtain ⟨a, b⟩ := e
    intro k x v hxk
    by_cases hak : a = k
    · subst hak
      have hstep : listSet ((a, b) :: rest) a v = (a, v) :: listSet rest a v := by
        simp [listSet]
      rw [hstep, lookup_cons_ne _ _ _ _ hxk, lookup_cons_ne _ _ _ _ hxk]
      exact ih a x v hxk
    · have hstep : listSet ((a, b) :: rest) k v = (a, b) :: listSet rest k v := by
        simp [listSet, hak]
      rw [hstep]
      by_cases hxa : x = a
      · subst hxa
        rw [lookup_cons_self, lookup_cons_self]
      · rw [lookup_cons_ne _ _ _ _ hxa, lookup_cons_ne _ _ _ _ hxa]
        exact ih k x v hxk

theorem lookup_map_addone :
    ∀ (c : UMICounter) (u : String) (n : Nat) (x : String),
      (c.map (fun e => if e.1 = u then (e.1, e.2 + n) else e)).lookup x
        = (c.lookup x).map (fun b => if x = u then b + n else b) := by
  intro c
  induction c with
  | nil => intro u n x; rfl
  | cons e rest ih =>
    obtain ⟨a, b⟩ := e
    intro u n x
    by_cases hau : a = u
    · subst hau
      have hstep : ((a, b) :: rest).map (fun e => if e.1 = a then (e.1, e.2 + n) else e)
          = (a, b + n) :: rest.map (fun e => if e.1 = a then (e.1, e.2 + n) else e) := by
        simp
      rw [hstep]
      by_cases hxa : x = a
      · subst hxa
        rw [lookup_cons_self, lookup_cons_self]
        simp
      · rw [lookup_cons_ne _ _ _ _ hxa, lookup_cons_ne _ _ _ _ hxa, ih]
    · have hstep : ((a, b) :: rest).map (fun e => if e.1 = u then (e.1, e.2 + n) else e)
          = (a, b) :: rest.map (fun e => if e.1 = u then (e.1, e.2 + n) else e) := by
        simp [hau]
      rw [hstep]
      by_cases hxa : x = a
      · subst hxa
        rw [lookup_cons_self, lookup_cons_self]
        simp [hau]
      · rw [lookup_cons_ne _ _ _ _ hxa, lookup_cons_ne _ _ _ _ hxa, ih]

theorem counterVal_counterAdd (c : UMICounter) (u : String) (n : Nat) (x : String) :
    counterVal (counterAdd c u n) x = counterVal c x + (if x = u then n else 0) := by
  unfold counterAdd
  split
  · rename_i hsome
    unfold counterVal
    rw [lookup_map_addone]
    by_cases hxu : x = u
    · subst hxu
      obtain ⟨b, hb⟩ := Option.isSome_iff_exists.mp hsome
      rw [hb]
      simp
    · cases hl : c.lookup x
      · simp [hxu]
      · simp [hxu]
  · rename_i hnone
    unfold counterVal
    rw [lookup_append]
    by_cases hxu : x = u
    · subst hxu
      rw [Option.not_isSome_iff_eq_none.mp hnone]
      rw [lookup_cons_self]
      simp
    · have : ([(u, n)] : UMICounter).lookup x = none := by
        rw [lookup_eq_none_iff]
        simpa using hxu
      rw [this, Option.or_none]
      simp [hxu]

theorem counterAdd_lookup_ne (c : UMICounter) (u : String) (n : Nat) (x : String)
    (h : x ≠ u) :
    (counterAdd c u n).lookup x = c.lookup x := by
  unfold counterAdd
  split
  · rw [lookup_map_addone]
    cases hl : c.lookup x
    · simp
    · simp [h]
  · rw [lookup_append]
    have : ([(u, n)] : UMICounter).lookup x = none := by
      rw [lookup_eq_none_iff]
      simpa using h
    rw [this, Option.or_none]

theorem counterAdd_keys_nodup (c : UMICounter) (u : String) (n : Nat)
    (h : (c.map Prod.fst).Nodup) : ((counterAdd c u n).map Prod.fst).Nodup := by
  unfold counterAdd
  split
  · have hkeys : (c.map (fun e => if e.1 = u then (e.1, e.2 + n) else e)).map Prod.fst
        = c.map Prod.fst := by
      simp only [List.map_map]
      congr 1
      funext e
      by_cases he : e.1 = u <;> simp [he]
    rw [hkeys]
    exact h
  · rename_i hnone
    rw [List.map_append]
    have hu : u ∉ c.map Prod.fst := by
      rw [← lookup_eq_none_iff]
      exact Option.not_isSome_iff_eq_none.mp hnone
    simp only [List.map_cons, List.map_nil]
    rw [List.nodup_append]
    refine ⟨h, List.nodup_singleton u, ?_⟩
    intro a ha hmem
    obtain rfl : a = u := by simpa using hmem
    exact hu ha

theorem counterAdd_keys_mem (c : UMICounter) (u : String) (n : Nat) (x : String)
    (h : x ∈ c.map Prod.fst) : x ∈ (counterAdd c u n).map Prod.fst := by
  unfold counterAdd
  split
  · have hkeys : (c.map (fun e => if e.1 = u then (e.1, e.2 + n) else e)).map Prod.fst
        = c.map Prod.fst := by
      simp only [List.map_map]
      congr 1
      funext e
      by_cases he : e.1 = u <;> simp [he]
    rw [hkeys]
    exact h
  · rw [List.map_append]
    exact List.mem_append_left _ h

theorem counterVal_counterUpdate (d : UMICounter) :
    ∀ (c : UMICounter) (x : String),
      counterVal (counterUpdate c d) x = counterVal c x + sumAtKey d x := by
  induction d with
  | nil =>
    intro c x
    simp [counterUpdate, sumAtKey]
  | cons e rest ih =>
    obtain ⟨u, n⟩ := e
    intro c x
    have hstep : counterUpdate c ((u, n) :: rest) = counterUpdate (counterAdd c u n) rest := rfl
    rw [hstep, ih, counterVal_counterAdd]
    have hsum : sumAtKey ((u, n) :: rest) x
        = (if x = u then n else 0) + sumAtKey rest x := by
      unfold sumAtKey
      rw [List.filter_cons]
      by_cases hux : u = x
      · subst hux
        simp
      · have : ¬x = u := fun h => hux h.symm
        simp [hux, this]
    rw [hsum]
    omega

theorem counterUpdate_keys_nodup (d : UMICounter) :
    ∀ (c : UMICounter), (c.map Prod.fst).Nodup →
      ((counterUpdate c d).map Prod.fst).Nodup := by
  induction d with
  | nil => intro c h; exact h
  | cons e rest ih =>
    intro c h
    exact ih (counterAdd c e.1 e.2) (counterAdd_keys_nodup c e.1 e.2 h)

theorem sumAtKey_eq_counterVal (d : UMICounter) (x : String)
    (h : (d.map Prod.fst).Nodup) :
    sumAtKey d x = counterVal d x := by
  cases hl : d.lookup x with
  | none =>
    have hnot : ∀ e ∈ d, ¬(e.1 = x) := by
      intro e he hEq
      have hmem : x ∈ d.map Prod.fst := hEq ▸ List.mem_map_of_mem Prod.fst he
      exact (lookup_eq_none_iff d x).mp hl hmem
    have hfil : d.filter (fun e => decide (e.1 = x)) = [] := by
      rw [List.filter_eq_nil_iff]
      intro e he
      simpa using hnot e he
    unfold sumAtKey counterVal
    rw [hfil, hl]
    rfl
  | some v =>
    have hmem := mem_of_lookup hl
    unfold sumAtKey counterVal
    rw [counter_filter_sum x v d h hmem, hl]
    rfl

theorem tagsVal_nil (T u : String) : tagsVal [] T u = 0 := rfl

theorem tagsVal_of_lookup_none (tags : List (String × UMICounter)) (T u : String)
    (h : tags.lookup T = none) : tagsVal tags T u = 0 := by
  unfold tagsVal
  rw [h]
  rfl

theorem updateRealTag_spec (fr : FinalResults) (real TAG : String) (cnts : UMICounter)
    (cell : CellEntry)
    (hlook : fr.lookup real = some cell)
    (hcellk : (cell.tags.map Prod.fst).Nodup)
    (hok : cell.isDefaultCounter = true ∨ TAG ∈ cell.tags.map Prod.fst) :
    ∃ cell', updateRealTag fr real TAG cnts = some (listSet fr real cell')
      ∧ cell'.isDefaultCounter = cell.isDefaultCounter
      ∧ (cell'.tags.map Prod.fst).Nodup
      ∧ (∀ T, T ∈ cell.tags.map Prod.fst → T ∈ cell'.tags.map Prod.fst)
      ∧ cell'.tags.lookup TAG = some (counterUpdate ((cell.tags.lookup TAG).getD []) cnts)
      ∧ (∀ T, T ≠ TAG → cell'.tags.lookup T = cell.tags.lookup T) := by
  simp only [updateRealTag, hlook]
  cases h0 : cell.tags.lookup TAG with
  | some c0 =>
    refine ⟨⟨cell.isDefaultCounter, listSet cell.tags TAG (counterUpdate c0 cnts)⟩,
      rfl, rfl, ?_, ?_, ?_, ?_⟩
    · rw [listSet_keys]
      exact hcellk
    · intro T hT
      rw [listSet_keys]
      exact hT
    · have hsome : (cell.tags.lookup TAG).isSome := by rw [h0]; rfl
      rw [listSet_lookup_self cell.tags TAG _ hsome]
      rfl
    · intro T hT
      exact listSet_lookup_ne cell.tags TAG T _ hT
  | none =>
    have hdef : cell.isDefaultCounter = true := by
      rcases hok with h | h
      · exact h
      · exact absurd h ((lookup_eq_none_iff _ _).mp h0)
    have hTAG : TAG ∉ cell.tags.map Prod.fst := (lookup_eq_none_iff _ _).mp h0
    refine ⟨⟨cell.isDefaultCounter, cell.tags ++ [(TAG, counterUpdate [] cnts)]⟩,
      by rw [hdef]; rfl, rfl, ?_, ?_, ?_, ?_⟩
    · rw [List.map_append]
      simp only [List.map_cons, List.map_nil]
      rw [List.nodup_append]
      refine ⟨hcellk, List.nodup_singleton TAG, ?_⟩
      intro a ha hmem
      obtain rfl : a = TAG := by simpa using hmem
      exact hTAG ha
    · intro T hT
      rw [List.map_append]
      exact List.mem_append_left _ hT
    · rw [lookup_append, h0]
      show ([(TAG, counterUpdate [] cnts)] : List (String × UMICounter)).lookup TAG
        = some (counterUpdate (Option.getD none []) cnts)
      rw [lookup_cons_self]
      rfl
    · intro T hT
      rw [lookup_append]
      have hnone : ([(TAG, counterUpdate [] cnts)] : List (String × UMICounter)).lookup T
          = none := by
        rw [lookup_eq_none_iff]
        simpa using hT
      rw [hnone, Option.or_none]

theorem updateRealTags_spec :
    ∀ (tlist : List (String × UMICounter)) (fr : FinalResults) (real : String)
      (cell : CellEntry),
      fr.lookup real = some cell →
      (cell.tags.map Prod.fst).Nodup →
      (cell.isDefaultCounter = true ∨ ∀ T ∈ tlist.map Prod.fst, T ∈ cell.tags.map Prod.fst) →
      (tlist.map Prod.fst).Nodup →
      (∀ e ∈ tlist, (e.2.map Prod.fst).Nodup) →
      ∃ fr' cell', updateRealTags real tlist fr = some fr'
        ∧ fr'.map Prod.fst = fr.map Prod.fst
        ∧ fr'.lookup real = some cell'
        ∧ (∀ cb, cb ≠ real → fr'.lookup cb = fr.lookup cb)
        ∧ cell'.isDefaultCounter = cell.isDefaultCounter
        ∧ (cell'.tags.map Prod.fst).Nodup
        ∧ (∀ T, T ∈ cell.tags.map Prod.fst → T ∈ cell'.tags.map Prod.fst)
        ∧ (∀ T u, tagsVal cell'.tags T u = tagsVal cell.tags T u + tagsVal tlist T u) := by
  intro tlist
  induction tlist with
  | nil =>
    intro fr real cell hlook hk _ _ _
    refine ⟨fr, cell, rfl, rfl, hlook, fun _ _ => rfl, rfl, hk, fun _ h => h, ?_⟩
    intro T u
    rw [tagsVal_nil]
    omega
  | cons e rest ih =>
    obtain ⟨TAG, cnts⟩ := e
    intro fr real cell hlook hcellk hcov hkeys hwfs
    have hokhead : cell.isDefaultCounter = true ∨ TAG ∈ cell.tags.map Prod.fst := by
      rcases hcov with h | h
      · exact Or.inl h
      · exact Or.inr (h TAG (by simp))
    obtain ⟨cell1, heq1, hd1, hk1, hsup1, hTag1, hoth1⟩ :=
      updateRealTag_spec fr real TAG cnts cell hlook hcellk hokhead
    have hsome : (fr.lookup real).isSome := by rw [hlook]; rfl
    have hlook1 : (listSet fr real cell1).lookup real = some cell1 :=
      listSet_lookup_self fr real cell1 hsome
    have hcov1 : cell1.isDefaultCounter = true
        ∨ ∀ T ∈ rest.map Prod.fst, T ∈ cell1.tags.map Prod.fst := by
      rcases hcov with h | h
      · exact Or.inl (hd1.trans h)
      · exact Or.inr (fun T hT => hsup1 T (h T (by simp [hT])))
    rw [List.map_cons, List.nodup_cons] at hkeys
    obtain ⟨fr', cell'', heq2, hkeys2, hlook2, hoth2, hd2, hk2, hsup2, hval2⟩ :=
      ih (listSet fr real cell1) real cell1 hlook1 hk1 hcov1 hkeys.2
        (fun e he => hwfs e (List.mem_cons_of_mem _ he))
    refine ⟨fr', cell'', ?_, ?_, hlook2, ?_, hd2.trans hd1, hk2,
      fun T hT => hsup2 T (hsup1 T hT), ?_⟩
    · show (match updateRealTag fr real TAG cnts with
        | none => none
        | some fr1 => updateRealTags real rest fr1) = some fr'
      rw [heq1]
      exact heq2
    · rw [hkeys2, listSet_keys]
    · intro cb hcb
      rw [hoth2 cb hcb, listSet_lookup_ne fr real cb cell1 hcb]
    · intro T u
      rw [hval2 T u]
      by_cases hT : T = TAG
      · subst hT
        have hrest : tagsVal rest T u = 0 :=
          tagsVal_of_lookup_none rest T u
            ((lookup_eq_none_iff rest T).mpr hkeys.1)
        have hhead : tagsVal ((T, cnts) :: rest) T u = counterVal cnts u := by
          unfold tagsVal
          rw [lookup_cons_self]
          rfl
        have hcell1 : tagsVal cell1.tags T u
            = tagsVal cell.tags T u + counterVal cnts u := by
          unfold tagsVal
          rw [hTag1]
          show counterVal (counterUpdate ((cell.tags.lookup T).getD []) cnts) u
            = counterVal ((cell.tags.lookup T).getD []) u + counterVal cnts u
          rw [counterVal_counterUpdate cnts _ u,
            sumAtKey_eq_counterVal cnts u (hwfs (T, cnts) (by simp))]
        rw [hcell1, hhead, hrest]
        omega
      · have hhead : tagsVal ((TAG, cnts) :: rest) T u = tagsVal rest T u := by
          unfold tagsVal
          rw [lookup_cons_ne _ _ _ _ hT]
        have hcell1 : tagsVal cell1.tags T u = tagsVal cell.tags T u := by
          unfold tagsVal
          rw [hoth1 T hT]
        rw [hcell1, hhead]

theorem frVal_eq_tagsVal (fr : FinalResults) (cb : String) (cell : CellEntry) (T u : String)
    (h : fr.lookup cb = some cell) : frVal fr cb T u = tagsVal cell.tags T u := by
  unfold frVal tagsVal
  rw [h]
  show (match cell.tags.lookup T with | none => 0 | some c => counterVal c u)
    = counterVal ((cell.tags.lookup T).getD []) u
  cases cell.tags.lookup T
  · rfl
  · rfl

theorem frVal_of_none (fr : FinalResults) (cb T u : String) (h : fr.lookup cb = none) :
    frVal fr cb T u = 0 := by
  unfold frVal
  rw [h]

theorem frVal_congr (fr1 fr2 : FinalResults) (cb : String)
    (h : fr1.lookup cb = fr2.lookup cb) (T u : String) :
    frVal fr1 cb T u = frVal fr2 cb T u := by
  unfold frVal
  rw [h]

theorem umisVal_congr (l1 l2 : List (String × Nat)) (k : String)
    (h : l1.lookup k = l2.lookup k) :
    umisVal l1 k = umisVal l2 k := by
  unfold umisVal
  rw [h]

theorem umisVal_eq_counterVal (l : List (String × Nat)) (k : String) :
    umisVal l k = counterVal l k := rfl

theorem collapse_fake_spec (real fake : String)
    (st : List (String × Nat) × FinalResults × Nat)
    (fcell : CellEntry) (fv : Nat) (rcell : CellEntry)
    (hne : real ≠ fake)
    (hcurk : (st.2.1.map Prod.fst).Nodup)
    (humisk : (st.1.map Prod.fst).Nodup)
    (hflook : st.2.1.lookup fake = some fcell)
    (hfwf : CellWF fcell)
    (hulook : st.1.lookup fake = some fv)
    (hrlook : st.2.1.lookup real = some rcell)
    (hrk : (rcell.tags.map Prod.fst).Nodup)
    (hcov : rcell.isDefaultCounter = true
        ∨ ∀ T ∈ fcell.tags.map Prod.fst, T ∈ rcell.tags.map Prod.fst) :
    ∃ umis' fr' rcell', collapse_fake real st fake = some (umis', fr', st.2.2 + 1)
      ∧ (umis'.map Prod.fst).Nodup
      ∧ (fr'.map Prod.fst).Nodup
      ∧ fr'.lookup fake = none
      ∧ umis'.lookup fake = none
      ∧ fr'.lookup real = some rcell'
      ∧ rcell'.isDefaultCounter = rcell.isDefaultCounter
      ∧ (rcell'.tags.map Prod.fst).Nodup
      ∧ (∀ T, T ∈ rcell.tags.map Prod.fst → T ∈ rcell'.tags.map Prod.fst)
      ∧ (∀ T u, tagsVal rcell'.tags T u = tagsVal rcell.tags T u + tagsVal fcell.tags T u)
      ∧ (∀ cb, cb ≠ real → cb ≠ fake →
          fr'.lookup cb = st.2.1.lookup cb ∧ umis'.lookup cb = st.1.lookup cb)
      ∧ umisVal umis' real = umisVal st.1 real + fv := by
  have herasedlook : (st.2.1.eraseP (fun e => e.1 == fake)).lookup real
      = some rcell := by
    rw [eraseP_lookup_ne st.2.1 fake real hne]
    exact hrlook
  have herasedk : ((st.2.1.eraseP (fun e => e.1 == fake)).map Prod.fst).Nodup :=
    eraseP_keys_nodup st.2.1 fake hcurk
  obtain ⟨fr'', cell', heqU, hkeysU, hlookU, hothU, hdU, hkU, hsupU, hvalU⟩ :=
    updateRealTags_spec fcell.tags (st.2.1.eraseP (fun e => e.1 == fake)) real rcell
      herasedlook hrk hcov hfwf.1 hfwf.2
  refine ⟨counterAdd (st.1.eraseP (fun e => e.1 == fake)) real fv, fr'', cell', ?_,
    ?_, ?_, ?_, ?_, hlookU, hdU, hkU, hsupU, hvalU, ?_, ?_⟩
  · show (match listPop st.2.1 fake with
      | none => none
      | some (temp, fr') =>
        match updateRealTags real temp.tags fr' with
        | none => none
        | some fr'' =>
          match listPop st.1 fake with
          | none => none
          | some (tv, umis') => some (counterAdd umis' real tv, fr'', st.2.2 + 1)) = _
    rw [show listPop st.2.1 fake
        = some (fcell, st.2.1.eraseP (fun e => e.1 == fake)) from by
      unfold listPop; rw [hflook]]
    rw [show listPop st.1 fake
        = some (fv, st.1.eraseP (fun e => e.1 == fake)) from by
      unfold listPop; rw [hulook]]
    dsimp only
    rw [heqU]
  · exact counterAdd_keys_nodup _ real fv (eraseP_keys_nodup st.1 fake humisk)
  · rw [hkeysU]
    exact herasedk
  · rw [hothU fake (fun h => hne h.symm)]
    exact eraseP_lookup_self st.2.1 fake hcurk
  · rw [counterAdd_lookup_ne _ real fv fake (fun h => hne h.symm)]
    exact eraseP_lookup_self st.1 fake humisk
  · intro cb hcbr hcbf
    constructor
    · rw [hothU cb hcbr]
      exact eraseP_lookup_ne st.2.1 fake cb hcbf
    · rw [counterAdd_lookup_ne _ real fv cb hcbr]
      exact eraseP_lookup_ne st.1 fake cb hcbf
  · rw [umisVal_eq_counterVal, counterVal_counterAdd, if_pos rfl]
    have : counterVal (st.1.eraseP (fun e => e.1 == fake)) real = counterVal st.1 real := by
      unfold counterVal
      rw [eraseP_lookup_ne st.1 fake real hne]
    rw [this]
    rfl

theorem collapse_fakes_spec :
    ∀ (fakes : List String) (real : String)
      (st : List (String × Nat) × FinalResults × Nat) (rcell : CellEntry),
      fakes.Nodup →
      real ∉ fakes →
      (st.2.1.map Prod.fst).Nodup →
      (st.1.map Prod.fst).Nodup →
      st.2.1.lookup real = some rcell →
      (rcell.tags.map Prod.fst).Nodup →
      (∀ f ∈ fakes, ∃ fcell, st.2.1.lookup f = some fcell ∧ CellWF fcell
          ∧ (st.1.lookup f).isSome) →
      (rcell.isDefaultCounter = true
        ∨ ∀ f ∈ fakes, ∀ fcell, st.2.1.lookup f = some fcell →
            ∀ T ∈ fcell.tags.map Prod.fst, T ∈ rcell.tags.map Prod.fst) →
      ∃ umis' fr' rcell',
        collapse_fakes real fakes st = some (umis', fr', st.2.2 + fakes.length)
        ∧ (umis'.map Prod.fst).Nodup
        ∧ (fr'.map Prod.fst).Nodup
        ∧ (∀ f ∈ fakes, fr'.lookup f = none ∧ umis'.lookup f = none)
        ∧ fr'.lookup real = some rcell'
        ∧ rcell'.isDefaultCounter = rcell.isDefaultCounter
        ∧ (rcell'.tags.map Prod.fst).Nodup
        ∧ (∀ T, T ∈ rcell.tags.map Prod.fst → T ∈ rcell'.tags.map Prod.fst)
        ∧ (∀ T u, tagsVal rcell'.tags T u = tagsVal rcell.tags T u
            + (fakes.map (fun f => frVal st.2.1 f T u)).sum)
        ∧ (∀ cb, cb ≠ real → cb ∉ fakes →
            fr'.lookup cb = st.2.1.lookup cb ∧ umis'.lookup cb = st.1.lookup cb)
        ∧ umisVal umis' real = umisVal st.1 real
            + (fakes.map (fun f => umisVal st.1 f)).sum := by
  intro fakes
  induction fakes with
  | nil =>
    intro real st rcell _ _ hcurk humisk hrlook hrk _ _
    exact ⟨st.1, st.2.1, rcell, rfl, humisk, hcurk,
      fun f hf => absurd hf (List.not_mem_nil f), hrlook, rfl, hrk, fun _ h => h,
      fun T u => rfl, fun cb _ _ => ⟨rfl, rfl⟩, rfl⟩
  | cons fake rest ih =>
    intro real st rcell hnd hreal hcurk humisk hrlook hrk hf hcov
    rw [List.nodup_cons] at hnd
    obtain ⟨fcell, hflook, hfwf, husome⟩ := hf fake (by simp)
    obtain ⟨fv, hfv⟩ := Option.isSome_iff_exists.mp husome
    have hne : real ≠ fake := fun h => hreal (h ▸ List.mem_cons_self _ _)
    have hcovhead : rcell.isDefaultCounter = true
        ∨ ∀ T ∈ fcell.tags.map Prod.fst, T ∈ rcell.tags.map Prod.fst := by
      rcases hcov with h | h
      · exact Or.inl h
      · exact Or.inr (h fake (by simp) fcell hflook)
    obtain ⟨umis1, fr1, rcell1, heq1, humisk1, hcurk1, hfake1none, humis1none, hrlook1,
      hd1, hrk1, hsup1, hval1, hframe1, humisval1⟩ :=
      collapse_fake_spec real fake st fcell fv rcell hne hcurk humisk hflook hfwf hfv
        hrlook hrk hcovhead
    have hfrest : ∀ f ∈ rest, ∃ fcell', fr1.lookup f = some fcell' ∧ CellWF fcell'
        ∧ (umis1.lookup f).isSome := by
      intro f hfmem
      obtain ⟨fcell', hl, hwfc, hus⟩ := hf f (List.mem_cons_of_mem _ hfmem)
      obtain ⟨hfr, hum⟩ := hframe1 f
        (fun hh => hreal (hh ▸ List.mem_cons_of_mem _ hfmem))
        (fun hh => hnd.1 (hh ▸ hfmem))
      refine ⟨fcell', ?_, hwfc, ?_⟩
      · rw [hfr]
        exact hl
      · rw [hum]
        exact hus
    have hcovrest : rcell1.isDefaultCounter = true
        ∨ ∀ f ∈ rest, ∀ fcell', fr1.lookup f = some fcell' →
            ∀ T ∈ fcell'.tags.map Prod.fst, T ∈ rcell1.tags.map Prod.fst := by
      rcases hcov with h | h
      · exact Or.inl (hd1.trans h)
      · refine Or.inr ?_
        intro f hfmem fcell' hl T hT
        have hfr := (hframe1 f
          (fun hh => hreal (hh ▸ List.mem_cons_of_mem _ hfmem))
          (fun hh => hnd.1 (hh ▸ hfmem))).1
        rw [hfr] at hl
        exact hsup1 T (h f (List.mem_cons_of_mem _ hfmem) fcell' hl T hT)
    have hrealrest : real ∉ rest := fun h => hreal (List.mem_cons_of_mem _ h)
    obtain ⟨umis', fr', rcell'', heq2, humisk2, hcurk2, hfnone2, hrlook2, hd2, hrk2,
      hsup2, hval2, hframe2, humisval2⟩ :=
      ih real (umis1, fr1, st.2.2 + 1) rcell1 hnd.2 hrealrest hcurk1 humisk1 hrlook1
        hrk1 hfrest hcovrest
    refine ⟨umis', fr', rcell'', ?_, humisk2, hcurk2, ?_, hrlook2, hd2.trans hd1, hrk2,
      fun T hT => hsup2 T (hsup1 T hT), ?_, ?_, ?_⟩
    · show (match collapse_fake real st fake with
        | none => none
        | some st' => collapse_fakes real rest st') = _
      rw [heq1]
      have hlen : st.2.2 + 1 + rest.length = st.2.2 + (fake :: rest).length := by
        rw [List.length_cons]
        omega
      rw [← hlen]
      exact heq2
    · intro f hfm
      rcases List.mem_cons.mp hfm with rfl | hfm'
      · obtain ⟨hfr, hum⟩ := hframe2 f (fun hh => hne hh.symm) hnd.1
        constructor
        · rw [hfr]
          exact hfake1none
        · rw [hum]
          exact humis1none
      · exact hfnone2 f hfm'
    · intro T u
      rw [hval2 T u, hval1 T u]
      have hmapeq : rest.map (fun f => frVal fr1 f T u)
          = rest.map (fun f => frVal st.2.1 f T u) := by
        apply List.map_congr_left
        intro f hfmem
        exact frVal_congr fr1 st.2.1 f
          ((hframe1 f (fun hh => hreal (hh ▸ List.mem_cons_of_mem _ hfmem))
            (fun hh => hnd.1 (hh ▸ hfmem))).1) T u
      rw [hmapeq]
      have hftv : tagsVal fcell.tags T u = frVal st.2.1 fake T u :=
        (frVal_eq_tagsVal st.2.1 fake fcell T u hflook).symm
      rw [hftv, List.map_cons, List.sum_cons]
      omega
    · intro cb hcbr hcbm
      have hcbf : cb ≠ fake := fun hh => hcbm (hh ▸ List.mem_cons_self _ _)
      have hcbrest : cb ∉ rest := fun hh => hcbm (List.mem_cons_of_mem _ hh)
      obtain ⟨h2a, h2b⟩ := hframe2 cb hcbr hcbrest
      obtain ⟨h1a, h1b⟩ := hframe1 cb hcbr hcbf
      exact ⟨h2a.trans h1a, h2b.trans h1b⟩
    · rw [humisval2]
      have hmapeq : rest.map (fun f => umisVal umis1 f)
          = rest.map (fun f => umisVal st.1 f) := by
        apply List.map_congr_left
        intro f hfmem
        exact umisVal_congr umis1 st.1 f
          ((hframe1 f (fun hh => hreal (hh ▸ List.mem_cons_of_mem _ hfmem))
            (fun hh => hnd.1 (hh ▸ hfmem))).2)
      rw [hmapeq, humisval1]
      have hfvv : umisVal st.1 fake = fv := by
        unfold umisVal
        rw [hfv]
        rfl
      rw [List.map_cons, List.sum_cons, hfvv]
      omega

theorem abmap_cell_keys (ab_map : List String) :
    ((ab_map.map (fun TAG => (TAG, ([] : UMICounter)))).map Prod.fst) = ab_map := by
  rw [List.map_map]
  exact List.map_id ab_map

theorem tagsVal_abmap_zero (ab_map : List String) (T u : String) :
    tagsVal (ab_map.map (fun TAG => (TAG, ([] : UMICounter)))) T u = 0 := by
  unfold tagsVal
  cases hl : (ab_map.map (fun TAG => (TAG, ([] : UMICounter)))).lookup T with
  | none => rfl
  | some c =>
    have hmem := mem_of_lookup hl
    obtain ⟨a, _, heq⟩ := List.mem_map.mp hmem
    have hc : c = [] := by
      injection heq with h1 h2
      exact h2.symm
    rw [hc]
    rfl

theorem collapse_group_spec (ab_map : List String) (real : String) (fakes : List String)
    (st : List (String × Nat) × FinalResults × Nat)
    (hnd : fakes.Nodup)
    (hreal : real ∉ fakes)
    (hcurk : (st.2.1.map Prod.fst).Nodup)
    (humisk : (st.1.map Prod.fst).Nodup)
    (hab : ab_map.Nodup)
    (hf : ∀ f ∈ fakes, ∃ fcell, st.2.1.lookup f = some fcell ∧ CellWF fcell
        ∧ (st.1.lookup f).isSome)
    (hdef : ∀ cell, st.2.1.lookup real = some cell → cell.isDefaultCounter = true)
    (hrwf : ∀ cell, st.2.1.lookup real = some cell → (cell.tags.map Prod.fst).Nodup)
    (hnew : st.2.1.lookup real = none →
        ∀ f ∈ fakes, ∀ fcell, st.2.1.lookup f = some fcell →
          ∀ T ∈ fcell.tags.map Prod.fst, T ∈ ab_map) :
    ∃ umis' fr' rcell',
      collapse_group ab_map st real fakes = some (umis', fr', st.2.2 + fakes.length)
      ∧ (umis'.map Prod.fst).Nodup
      ∧ (fr'.map Prod.fst).Nodup
      ∧ (∀ f ∈ fakes, fr'.lookup f = none ∧ umis'.lookup f = none)
      ∧ fr'.lookup real = some rcell'
      ∧ (∀ T u, frVal fr' real T u
          = frVal st.2.1 real T u + (fakes.map (fun f => frVal st.2.1 f T u)).sum)
      ∧ (st.2.1.lookup real = none →
          ∀ TAG ∈ ab_map, (rcell'.tags.lookup TAG).isSome)
      ∧ (∀ cb, cb ≠ real → cb ∉ fakes →
          fr'.lookup cb = st.2.1.lookup cb ∧ umis'.lookup cb = st.1.lookup cb)
      ∧ umisVal umis' real = umisVal st.1 real
          + (fakes.map (fun f => umisVal st.1 f)).sum := by
  cases hpres : st.2.1.lookup real with
  | some rcell =>
    have hsome : (st.2.1.lookup real).isSome := by rw [hpres]; rfl
    have hgroup : collapse_group ab_map st real fakes
        = collapse_fakes real fakes (st.1, st.2.1, st.2.2) := by
      unfold collapse_group
      rw [if_pos hsome]
    obtain ⟨umis', fr', rcell', heq, humisk', hcurk', hfnone, hrlook', hd', hrk', hsup',
      hval', hframe', humisval'⟩ :=
      collapse_fakes_spec fakes real (st.1, st.2.1, st.2.2) rcell hnd hreal hcurk humisk
        hpres (hrwf rcell hpres) hf (Or.inl (hdef rcell hpres))
    refine ⟨umis', fr', rcell', ?_, humisk', hcurk', hfnone, hrlook', ?_, ?_, hframe',
      humisval'⟩
    · rw [hgroup]
      exact heq
    · intro T u
      rw [frVal_eq_tagsVal fr' real rcell' T u hrlook', hval' T u,
        frVal_eq_tagsVal st.2.1 real rcell T u hpres]
    · intro hnone
      cases hnone
  | none =>
    have hnsome : ¬(st.2.1.lookup real).isSome = true := by rw [hpres]; simp
    have hgroup : collapse_group ab_map st real fakes
        = collapse_fakes real fakes
          (st.1, st.2.1 ++ [(real, ⟨false, ab_map.map (fun TAG => (TAG, []))⟩)], st.2.2) := by
      unfold collapse_group
      rw [if_neg hnsome]
    have hfr0real : (st.2.1 ++ [(real, (⟨false, ab_map.map (fun TAG => (TAG, []))⟩ : CellEntry))]).lookup real
        = some ⟨false, ab_map.map (fun TAG => (TAG, []))⟩ := by
      rw [lookup_append, hpres]
      rw [lookup_cons_self]
      rfl
    have hfr0other : ∀ cb, cb ≠ real →
        (st.2.1 ++ [(real, (⟨false, ab_map.map (fun TAG => (TAG, []))⟩ : CellEntry))]).lookup cb
          = st.2.1.lookup cb := by
      intro cb hcb
      rw [lookup_append]
      have : ([(real, (⟨false, ab_map.map (fun TAG => (TAG, []))⟩ : CellEntry))]).lookup cb
          = none := by
        rw [lookup_eq_none_iff]
        simpa using hcb
      rw [this, Option.or_none]
    have hfr0k : ((st.2.1 ++ [(real, (⟨false, ab_map.map (fun TAG => (TAG, []))⟩ : CellEntry))]).map
        Prod.fst).Nodup := by
      rw [List.map_append]
      simp only [List.map_cons, List.map_nil]
      rw [List.nodup_append]
      refine ⟨hcurk, List.nodup_singleton real, ?_⟩
      intro a ha hmem
      obtain rfl : a = real := by simpa using hmem
      exact (lookup_eq_none_iff st.2.1 a).mp hpres ha
    have hnewkeys : (((⟨false, ab_map.map (fun TAG => (TAG, []))⟩ : CellEntry)).tags.map
        Prod.fst).Nodup := by
      show ((ab_map.map (fun TAG => (TAG, ([] : UMICounter)))).map Prod.fst).Nodup
      rw [abmap_cell_keys]
      exact hab
    have hffr0 : ∀ f ∈ fakes, ∃ fcell,
        (st.2.1 ++ [(real, (⟨false, ab_map.map (fun TAG => (TAG, []))⟩ : CellEntry))]).lookup f
          = some fcell ∧ CellWF fcell ∧ (st.1.lookup f).isSome := by
      intro f hfm
      obtain ⟨fcell, hl, hwfc, hus⟩ := hf f hfm
      refine ⟨fcell, ?_, hwfc, hus⟩
      rw [hfr0other f (fun hh => hreal (hh ▸ hfm))]
      exact hl
    have hcov0 : (⟨false, ab_map.map (fun TAG => (TAG, []))⟩ : CellEntry).isDefaultCounter = true
        ∨ ∀ f ∈ fakes, ∀ fcell,
            (st.2.1 ++ [(real, (⟨false, ab_map.map (fun TAG => (TAG, []))⟩ : CellEntry))]).lookup f
              = some fcell →
            ∀ T ∈ fcell.tags.map Prod.fst,
              T ∈ ((⟨false, ab_map.map (fun TAG => (TAG, []))⟩ : CellEntry)).tags.map Prod.fst := by
      refine Or.inr ?_
      intro f hfm fcell hl T hT
      rw [hfr0other f (fun hh => hreal (hh ▸ hfm))] at hl
      show T ∈ (ab_map.map (fun TAG => (TAG, ([] : UMICounter)))).map Prod.fst
      rw [abmap_cell_keys]
      exact hnew hpres f hfm fcell hl T hT
    obtain ⟨umis', fr', rcell', heq, humisk', hcurk', hfnone, hrlook', hd', hrk', hsup',
      hval', hframe', humisval'⟩ :=
      collapse_fakes_spec fakes real
        (st.1, st.2.1 ++ [(real, ⟨false, ab_map.map (fun TAG => (TAG, []))⟩)], st.2.2)
        ⟨false, ab_map.map (fun TAG => (TAG, []))⟩ hnd hreal hfr0k humisk hfr0real
        hnewkeys hffr0 hcov0
    refine ⟨umis', fr', rcell', ?_, humisk', hcurk', hfnone, hrlook', ?_, ?_, ?_,
      humisval'⟩
    · rw [hgroup]
      exact heq
    · intro T u
      rw [frVal_eq_tagsVal fr' real rcell' T u hrlook', hval' T u]
      rw [show tagsVal ((⟨false, ab_map.map (fun TAG => (TAG, []))⟩ : CellEntry)).tags T u
          = 0 from tagsVal_abmap_zero ab_map T u]
      rw [frVal_of_none st.2.1 real T u hpres]
      have hmapeq : fakes.map (fun f =>
          frVal (st.2.1 ++ [(real, (⟨false, ab_map.map (fun TAG => (TAG, []))⟩ : CellEntry))]) f T u)
          = fakes.map (fun f => frVal st.2.1 f T u) := by
        apply List.map_congr_left
        intro f hfm
        exact frVal_congr _ _ f (hfr0other f (fun hh => hreal (hh ▸ hfm))) T u
      rw [hmapeq]
    · intro _ TAG hTAG
      rw [lookup_isSome_iff]
      refine hsup' TAG ?_
      show TAG ∈ (ab_map.map (fun T => (T, ([] : UMICounter)))).map Prod.fst
      rw [abmap_cell_keys]
      exact hTAG
    · intro cb hcbr hcbm
      obtain ⟨ha, hb⟩ := hframe' cb hcbr hcbm
      refine ⟨?_, hb⟩
      rw [ha]
      exact hfr0other cb hcbr

theorem collapse_groups_spec :
    ∀ (groups : List (String × List String)) (ab_map : List String)
      (st : List (String × Nat) × FinalResults × Nat),
      (groups.map Prod.fst).Nodup →
      (groups.flatMap Prod.snd).Nodup →
      (∀ r ∈ groups.map Prod.fst, ∀ f ∈ groups.flatMap Prod.snd, r ≠ f) →
      (st.2.1.map Prod.fst).Nodup →
      (st.1.map Prod.fst).Nodup →
      ab_map.Nodup →
      (∀ f ∈ groups.flatMap Prod.snd, ∃ fcell, st.2.1.lookup f = some fcell ∧ CellWF fcell
          ∧ (st.1.lookup f).isSome) →
      (∀ p ∈ groups, ∀ cell, st.2.1.lookup p.1 = some cell →
          cell.isDefaultCounter = true ∧ (cell.tags.map Prod.fst).Nodup) →
      (∀ p ∈ groups, st.2.1.lookup p.1 = none →
          ∀ f ∈ p.2, ∀ fcell, st.2.1.lookup f = some fcell →
            ∀ T ∈ fcell.tags.map Prod.fst, T ∈ ab_map) →
      ∃ umis' fr' k',
        collapse_groups ab_map groups st = some (umis', fr', k')
        ∧ k' = st.2.2 + (groups.map (fun p => p.2.length)).sum
        ∧ (∀ f ∈ groups.flatMap Prod.snd, fr'.lookup f = none ∧ umis'.lookup f = none)
        ∧ (∀ p ∈ groups,
            (∀ T u, frVal fr' p.1 T u
              = frVal st.2.1 p.1 T u + (p.2.map (fun f => frVal st.2.1 f T u)).sum)
            ∧ umisVal umis' p.1
                = umisVal st.1 p.1 + (p.2.map (fun f => umisVal st.1 f)).sum
            ∧ (st.2.1.lookup p.1 = none →
                ∃ cell, fr'.lookup p.1 = some cell
                  ∧ ∀ TAG ∈ ab_map, (cell.tags.lookup TAG).isSome))
        ∧ (∀ cb, cb ∉ groups.map Prod.fst → cb ∉ groups.flatMap Prod.snd →
            fr'.lookup cb = st.2.1.lookup cb ∧ umis'.lookup cb = st.1.lookup cb)
        ∧ (umis'.map Prod.fst).Nodup ∧ (fr'.map Prod.fst).Nodup := by
  intro groups
  induction groups with
  | nil =>
    intro ab_map st _ _ _ hcurk humisk _ _ _ _
    exact ⟨st.1, st.2.1, st.2.2, rfl, rfl,
      fun f hf => absurd hf (List.not_mem_nil f),
      fun p hp => absurd hp (List.not_mem_nil p),
      fun cb _ _ => ⟨rfl, rfl⟩, humisk, hcurk⟩
  | cons g rest ih =>
    obtain ⟨real, fakes⟩ := g
    intro ab_map st hreals hbind hdisj hcurk humisk hab hfcells hpresent hnew
    rw [List.map_cons, List.nodup_cons] at hreals
    rw [List.flatMap_cons] at hbind hdisj hfcells
    rw [List.nodup_append] at hbind
    have hrealfakes : real ∉ fakes := fun h =>
      hdisj real (by rw [List.map_cons]; exact List.mem_cons_self _ _)
        real (List.mem_append_left _ h) rfl
    obtain ⟨umis1, fr1, rcell1, heq1, humisk1, hcurk1, hfnone1, hrlook1, hval1, hinit1,
      hframe1, humisval1⟩ :=
      collapse_group_spec ab_map real fakes st hbind.1 hrealfakes hcurk humisk hab
        (fun f hf => hfcells f (List.mem_append_left _ hf))
        (fun cell hc => (hpresent (real, fakes) (List.mem_cons_self _ _) cell hc).1)
        (fun cell hc => (hpresent (real, fakes) (List.mem_cons_self _ _) cell hc).2)
        (fun hn => hnew (real, fakes) (List.mem_cons_self _ _) hn)
    have hrestne : ∀ cb ∈ rest.map Prod.fst ++ rest.flatMap Prod.snd,
        cb ≠ real ∧ cb ∉ fakes := by
      intro cb hcb
      rcases List.mem_append.mp hcb with hcb | hcb
      · constructor
        · intro hh
          exact hreals.1 (hh ▸ hcb)
        · intro hh
          exact hdisj cb (by rw [List.map_cons]; exact List.mem_cons_of_mem _ hcb)
            cb (List.mem_append_left _ hh) rfl
      · constructor
        · intro hh
          exact hdisj real (by rw [List.map_cons]; exact List.mem_cons_self _ _)
            cb (List.mem_append_right _ hcb) hh.symm
        · intro hh
          exact hbind.2.2 hh hcb
    have hfstay : ∀ f ∈ rest.flatMap Prod.snd,
        fr1.lookup f = st.2.1.lookup f ∧ umis1.lookup f = st.1.lookup f := by
      intro f hf
      obtain ⟨hne, hnm⟩ := hrestne f (List.mem_append_right _ hf)
      exact hframe1 f hne hnm
    have hrstay : ∀ p ∈ rest,
        fr1.lookup p.1 = st.2.1.lookup p.1 ∧ umis1.lookup p.1 = st.1.lookup p.1 := by
      intro p hp
      obtain ⟨hne, hnm⟩ := hrestne p.1
        (List.mem_append_left _ (List.mem_map_of_mem Prod.fst hp))
      exact hframe1 p.1 hne hnm
    obtain ⟨umis', fr', k', heq2, hk2, hfnone2, hpergroup2, hframe2, humisk2, hcurk2⟩ :=
      ih ab_map (umis1, fr1, st.2.2 + fakes.length) hreals.2 hbind.2.1
        (fun r hr f hf => hdisj r (by rw [List.map_cons]; exact List.mem_cons_of_mem _ hr)
          f (List.mem_append_right _ hf))
        hcurk1 humisk1 hab
        (by
          intro f hf
          obtain ⟨fcell, hl, hwfc, hus⟩ := hfcells f (List.mem_append_right _ hf)
          obtain ⟨ha, hb⟩ := hfstay f hf
          exact ⟨fcell, by rw [ha]; exact hl, hwfc, by rw [hb]; exact hus⟩)
        (by
          intro p hp cell hc
          rw [(hrstay p hp).1] at hc
          exact hpresent p (List.mem_cons_of_mem _ hp) cell hc)
        (by
          intro p hp hn f hf fcell hl
          rw [(hrstay p hp).1] at hn
          rw [(hfstay f (List.mem_flatMap.mpr ⟨p, hp, hf⟩)).1] at hl
          exact hnew p (List.mem_cons_of_mem _ hp) hn f hf fcell hl)
    have hrealnr : real ∉ rest.map Prod.fst := hreals.1
    have hrealnb : real ∉ rest.flatMap Prod.snd := by
      intro hh
      exact hdisj real (by rw [List.map_cons]; exact List.mem_cons_self _ _)
        real (List.mem_append_right _ hh) rfl
    obtain ⟨hfrreal, humreal⟩ := hframe2 real hrealnr hrealnb
    refine ⟨umis', fr', k', ?_, ?_, ?_, ?_, ?_, humisk2, hcurk2⟩
    · show (match collapse_group ab_map st real fakes with
        | none => none
        | some st' => collapse_groups ab_map rest st') = some (umis', fr', k')
      rw [heq1]
      exact heq2
    · rw [hk2, List.map_cons, List.sum_cons]
      show st.2.2 + fakes.length + (List.map (fun p => p.2.length) rest).sum
          = st.2.2 + (fakes.length + (List.map (fun p => p.2.length) rest).sum)
      omega
    · intro f hf
      rw [List.flatMap_cons] at hf
      rcases List.mem_append.mp hf with hf1 | hf2
      · have hfnr : f ∉ rest.map Prod.fst := by
          intro hh
          exact hdisj f (by rw [List.map_cons]; exact List.mem_cons_of_mem _ hh)
            f (List.mem_append_left _ hf1) rfl
        have hfnb : f ∉ rest.flatMap Prod.snd := fun hh => hbind.2.2 hf1 hh
        obtain ⟨h2a, h2b⟩ := hframe2 f hfnr hfnb
        obtain ⟨h1a, h1b⟩ := hfnone1 f hf1
        constructor
        · rw [h2a]
          exact h1a
        · rw [h2b]
          exact h1b
      · exact hfnone2 f hf2
    · intro p hp
      rcases List.mem_cons.mp hp with rfl | hp'
      · refine ⟨?_, ?_, ?_⟩
        · intro T u
          rw [frVal_congr fr' fr1 (real, fakes).1 hfrreal T u]
          exact hval1 T u
        · rw [umisVal_congr umis' umis1 (real, fakes).1 humreal]
          exact humisval1
        · intro hn
          exact ⟨rcell1, by rw [hfrreal]; exact hrlook1, hinit1 hn⟩
      · obtain ⟨hv2, hu2, hz2⟩ := hpergroup2 p hp'
        refine ⟨?_, ?_, ?_⟩
        · intro T u
          rw [hv2 T u]
          dsimp only
          rw [frVal_congr fr1 st.2.1 p.1 (hrstay p hp').1 T u]
          have hmapeq : p.2.map (fun f => frVal fr1 f T u)
              = p.2.map (fun f => frVal st.2.1 f T u) := by
            apply List.map_congr_left
            intro f hfm
            exact frVal_congr fr1 st.2.1 f
              (hfstay f (List.mem_flatMap.mpr ⟨p, hp', hfm⟩)).1 T u
          rw [hmapeq]
        · rw [hu2]
          dsimp only
          rw [umisVal_congr umis1 st.1 p.1 (hrstay p hp').2]
          have hmapeq : p.2.map (fun f => umisVal umis1 f)
              = p.2.map (fun f => umisVal st.1 f) := by
            apply List.map_congr_left
            intro f hfm
            exact umisVal_congr umis1 st.1 f
              (hfstay f (List.mem_flatMap.mpr ⟨p, hp', hfm⟩)).2
          rw [hmapeq]
        · intro hn
          exact hz2 ((hrstay p hp').1.trans hn)
    · intro cb hcbr hcbb
      have hcb1 : cb ≠ real := by
        intro hh
        refine hcbr ?_
        rw [List.map_cons]
        exact hh ▸ List.mem_cons_self _ _
      have hcb2 : cb ∉ fakes := by
        intro hh
        refine hcbb ?_
        rw [List.flatMap_cons]
        exact List.mem_append_left _ hh
      have hcb3 : cb ∉ rest.map Prod.fst := by
        intro hh
        refine hcbr ?_
        rw [List.map_cons]
        exact List.mem_cons_of_mem _ hh
      have hcb4 : cb ∉ rest.flatMap Prod.snd := by
        intro hh
        refine hcbb ?_
        rw [List.flatMap_cons]
        exact List.mem_append_right _ hh
      obtain ⟨h2a, h2b⟩ := hframe2 cb hcb3 hcb4
      obtain ⟨h1a, h1b⟩ := hframe1 cb hcb1 hcb2
      exact ⟨h2a.trans h1a, h2b.trans h1b⟩

/-- C4: `collapse_cells` on a well-formed true-to-false mapping succeeds and
(1) tallies exactly one corrected barcode per false barcode folded in,
(2) removes every false barcode's per-tag counter set and per-cell UMI total,
(3) for every group merges each false barcode's per-tag UMI counts into the
true barcode's counters and moves its per-cell UMI total to the true barcode,
(4) for a true barcode not already present creates an entry holding a
counter for every tag of the reference panel (whose counts, by (3), are
exactly the merged false-barcode counts), and
(5) leaves every untouched barcode's entries unchanged. -/
theorem collapse_cells_spec (ttf : List (String × List String))
    (umis : List (String × Nat)) (fr : FinalResults) (ab_map : List String)
    (hreals : (ttf.map Prod.fst).Nodup)
    (hfakes : (ttf.flatMap Prod.snd).Nodup)
    (hdisj : ∀ r ∈ ttf.map Prod.fst, ∀ f ∈ ttf.flatMap Prod.snd, r ≠ f)
    (hfrk : (fr.map Prod.fst).Nodup)
    (humk : (umis.map Prod.fst).Nodup)
    (hab : ab_map.Nodup)
    (hfcells : ∀ f ∈ ttf.flatMap Prod.snd, ∃ fcell, fr.lookup f = some fcell
        ∧ CellWF fcell ∧ (umis.lookup f).isSome)
    (hpresent : ∀ p ∈ ttf, ∀ cell, fr.lookup p.1 = some cell →
        cell.isDefaultCounter = true ∧ (cell.tags.map Prod.fst).Nodup)
    (hnew : ∀ p ∈ ttf, fr.lookup p.1 = none →
        ∀ f ∈ p.2, ∀ fcell, fr.lookup f = some fcell →
          ∀ T ∈ fcell.tags.map Prod.fst, T ∈ ab_map) :
    ∃ umis' fr' k,
      collapse_cells ttf umis fr ab_map = some (umis', fr', k)
      ∧ k = (ttf.map (fun p => p.2.length)).sum
      ∧ (∀ f ∈ ttf.flatMap Prod.snd, fr'.lookup f = none ∧ umis'.lookup f = none)
      ∧ (∀ p ∈ ttf,
          (∀ T u, frVal fr' p.1 T u
            = frVal fr p.1 T u + (p.2.map (fun f => frVal fr f T u)).sum)
          ∧ umisVal umis' p.1
              = umisVal umis p.1 + (p.2.map (fun f => umisVal umis f)).sum
          ∧ (fr.lookup p.1 = none →
              ∃ cell, fr'.lookup p.1 = some cell
                ∧ ∀ TAG ∈ ab_map, (cell.tags.lookup TAG).isSome))
      ∧ (∀ cb, cb ∉ ttf.map Prod.fst → cb ∉ ttf.flatMap Prod.snd →
          fr'.lookup cb = fr.lookup cb ∧ umis'.lookup cb = umis.lookup cb) := by
  obtain ⟨umis', fr', k', heq, hk, hrm, hper, hframe, _, _⟩ :=
    collapse_groups_spec ttf ab_map (umis, fr, 0) hreals hfakes hdisj hfrk humk hab
      hfcells hpresent hnew
  exact ⟨umis', fr', k', heq, hk.trans (Nat.zero_add _), hrm, hper, hframe⟩

/-- Witness for C4: the spec's own example — observed barcode `AAAAT`
folded into whitelist barcode `AAAAA`, panel `["tagX"]`. -/
theorem collapse_cells_spec_witness :
    (([("AAAAA", ["AAAAT"])] : List (String × List String)).map Prod.fst).Nodup
    ∧ (([("AAAAA", ["AAAAT"])] : List (String × List String)).flatMap Prod.snd).Nodup
    ∧ (∃ umis' fr' k,
        collapse_cells [("AAAAA", ["AAAAT"])] [("AAAAT", 3)]
            [("AAAAT", ⟨true, [("tagX", [("u1", 2)])]⟩)] ["tagX"]
          = some (umis', fr', k)
        ∧ k = (([("AAAAA", ["AAAAT"])] : List (String × List String)).map
            (fun p => p.2.length)).sum
        ∧ (∀ f ∈ ([("AAAAA", ["AAAAT"])] :
              List (String × List String)).flatMap Prod.snd,
            fr'.lookup f = none ∧ umis'.lookup f = none)
        ∧ (∀ p ∈ ([("AAAAA", ["AAAAT"])] : List (String × List String)),
            (∀ T u, frVal fr' p.1 T u
              = frVal [("AAAAT", ⟨true, [("tagX", [("u1", 2)])]⟩)] p.1 T u
                + (p.2.map (fun f =>
                    frVal [("AAAAT", ⟨true, [("tagX", [("u1", 2)])]⟩)] f T u)).sum)
            ∧ umisVal umis' p.1
                = umisVal [("AAAAT", 3)] p.1
                  + (p.2.map (fun f => umisVal [("AAAAT", 3)] f)).sum
            ∧ (List.lookup p.1 ([("AAAAT", ⟨true, [("tagX", [("u1", 2)])]⟩)] :
                  FinalResults) = none →
                ∃ cell, fr'.lookup p.1 = some cell
                  ∧ ∀ TAG ∈ (["tagX"] : List String),
                      (cell.tags.lookup TAG).isSome))
        ∧ (∀ cb, cb ∉ ([("AAAAA", ["AAAAT"])] :
              List (String × List String)).map Prod.fst →
            cb ∉ ([("AAAAA", ["AAAAT"])] :
              List (String × List String)).flatMap Prod.snd →
            fr'.lookup cb
                = List.lookup cb ([("AAAAT", ⟨true, [("tagX", [("u1", 2)])]⟩)] :
                    FinalResults)
              ∧ umis'.lookup cb = List.lookup cb [("AAAAT", 3)])) :=
  ⟨by decide, by decide,
    collapse_cells_spec [("AAAAA", ["AAAAT"])] [("AAAAT", 3)]
      [("AAAAT", ⟨true, [("tagX", [("u1", 2)])]⟩)] ["tagX"]
      (by decide) (by decide) (by decide) (by decide) (by decide) (by decide)
      (by
        intro f hf
        have hfe : f = "AAAAT" := by simpa using hf
        subst hfe
        exact ⟨⟨true, [("tagX", [("u1", 2)])]⟩, rfl, ⟨by decide, by decide⟩, rfl⟩)
      (by
        intro p hp cell hc
        have hpe : p = ("AAAAA", ["AAAAT"]) := by simpa using hp
        subst hpe
        exact Option.noConfusion hc)
      (by
        intro p hp hn f hf fcell hfc T hT
        have hpe : p = ("AAAAA", ["AAAAT"]) := by simpa using hp
        subst hpe
        have hfe : f = "AAAAT" := by simpa using hf
        subst hfe
        have hfc' : some (⟨true, [("tagX", [("u1", 2)])]⟩ : CellEntry)
            = some fcell := hfc
        rw [← Option.some.inj hfc'] at hT
        simpa using hT)⟩

theorem gen_cell_spec (otm : List (String × TagInfo)) (n_tags i : Nat) :
    ∀ (tags : List (String × UMICounter)) (ms : (Nat → Nat → Nat) × (Nat → Nat → Nat)),
      (∀ e1 ∈ otm, ∀ e2 ∈ otm, e1.2.id = e2.2.id → e1 = e2) →
      (tags.map Prod.fst).Nodup →
      (∀ t cnt, (t, cnt) ∈ tags → cnt ≠ [] →
          ∃ info, otm.lookup t = some info ∧ info.id < n_tags) →
      ∃ ms', gen_cell otm n_tags i tags ms = some ms'
        ∧ (∀ t cnt info, (t, cnt) ∈ tags → cnt ≠ [] → otm.lookup t = some info →
            ms'.1 info.id i = cnt.length ∧ ms'.2 info.id i = (cnt.map Prod.snd).sum)
        ∧ (∀ r c, ¬(c = i ∧ ∃ t cnt info, (t, cnt) ∈ tags ∧ cnt ≠ [] ∧
              otm.lookup t = some info ∧ info.id = r) →
            ms'.1 r c = ms.1 r c ∧ ms'.2 r c = ms.2 r c) := by
  intro tags
  induction tags with
  | nil =>
    intro ms _ _ _
    exact ⟨ms, rfl, fun t cnt info ht => absurd ht (List.not_mem_nil _),
      fun r c _ => ⟨rfl, rfl⟩⟩
  | cons e rest ih =>
    obtain ⟨t0, cnt0⟩ := e
    intro ms hinj hkeys hlk
    rw [List.map_cons, List.nodup_cons] at hkeys
    by_cases hemp : cnt0.isEmpty
    · have hc0 : cnt0 = [] := by simpa using hemp
      obtain ⟨ms', heq, hval, hframe⟩ := ih ms hinj hkeys.2
        (fun t cnt ht hne => hlk t cnt (List.mem_cons_of_mem _ ht) hne)
      refine ⟨ms', ?_, ?_, ?_⟩
      · simp only [gen_cell]
        rw [if_pos hemp]
        exact heq
      · intro t cnt info ht hne hl
        rcases List.mem_cons.mp ht with heq0 | ht'
        · rw [Prod.mk.injEq] at heq0
          exact absurd (heq0.2.trans hc0) hne
        · exact hval t cnt info ht' hne hl
      · intro r c hnot
        refine hframe r c ?_
        rintro ⟨hc, t, cnt, info, htm, hcne, hlm, hidm⟩
        exact hnot ⟨hc, t, cnt, info, List.mem_cons_of_mem _ htm, hcne, hlm, hidm⟩
    · have hne0 : cnt0 ≠ [] := fun h => hemp (by rw [h]; rfl)
      obtain ⟨info0, hl0, hlt0⟩ := hlk t0 cnt0 (List.mem_cons_self _ _) hne0
      obtain ⟨ms', heq, hval, hframe⟩ := ih
        (setEntry ms.1 info0.id i cnt0.length,
          setEntry ms.2 info0.id i (cnt0.map Prod.snd).sum) hinj hkeys.2
        (fun t cnt ht hne => hlk t cnt (List.mem_cons_of_mem _ ht) hne)
      refine ⟨ms', ?_, ?_, ?_⟩
      · simp only [gen_cell, hl0]
        rw [if_neg hemp, if_pos hlt0]
        exact heq
      · intro t cnt info ht hnet hl
        rcases List.mem_cons.mp ht with heq0 | ht'
        · rw [Prod.mk.injEq] at heq0
          obtain ⟨h1, h2⟩ := heq0
          rw [h1] at hl
          rw [h2]
          have hinfo : info0 = info := by
            rw [hl0] at hl
            exact Option.some.inj hl
          subst hinfo
          have hnohit : ¬(i = i ∧ ∃ t cnt info, (t, cnt) ∈ rest ∧ cnt ≠ []
              ∧ otm.lookup t = some info ∧ info.id = info0.id) := by
            rintro ⟨-, t, cnt, info, htm, hcne, hlm, hidm⟩
            have hmem1 : (t0, info0) ∈ otm := mem_of_lookup hl0
            have hmem2 : (t, info) ∈ otm := mem_of_lookup hlm
            have hee : (t, info) = (t0, info0) := hinj _ hmem2 _ hmem1 hidm
            have ht0 : t = t0 := (Prod.ext_iff.mp hee).1
            exact hkeys.1 (ht0 ▸ (List.mem_map.mpr ⟨(t, cnt), htm, rfl⟩))
          obtain ⟨hf1, hf2⟩ := hframe info0.id i hnohit
          constructor
          · rw [hf1]
            show setEntry ms.1 info0.id i cnt0.length info0.id i = cnt0.length
            simp [setEntry]
          · rw [hf2]
            show setEntry ms.2 info0.id i (cnt0.map Prod.snd).sum info0.id i
              = (cnt0.map Prod.snd).sum
            simp [setEntry]
        · exact hval t cnt info ht' hnet hl
      · intro r c hnot
        have hnot' : ¬(c = i ∧ ∃ t cnt info, (t, cnt) ∈ rest ∧ cnt ≠ []
            ∧ otm.lookup t = some info ∧ info.id = r) := by
          rintro ⟨hc, t, cnt, info, htm, hcne, hlm, hidm⟩
          exact hnot ⟨hc, t, cnt, info, List.mem_cons_of_mem _ htm, hcne, hlm, hidm⟩
        obtain ⟨hf1, hf2⟩ := hframe r c hnot'
        have hne1 : ¬(r = info0.id ∧ c = i) := by
          rintro ⟨hr, hc⟩
          exact hnot ⟨hc, t0, cnt0, info0, List.mem_cons_self _ _, hne0, hl0, hr.symm⟩
        constructor
        · rw [hf1]
          show setEntry ms.1 info0.id i cnt0.length r c = ms.1 r c
          simp only [setEntry]
          rw [if_neg hne1]
        · rw [hf2]
          show setEntry ms.2 info0.id i (cnt0.map Prod.snd).sum r c = ms.2 r c
          simp only [setEntry]
          rw [if_neg hne1]

theorem gen_cells_spec (otm : List (String × TagInfo)) (n_tags : Nat)
    (fr : FinalResults)
    (hinj : ∀ e1 ∈ otm, ∀ e2 ∈ otm, e1.2.id = e2.2.id → e1 = e2) :
    ∀ (cbs : List String) (i : Nat) (ms : (Nat → Nat → Nat) × (Nat → Nat → Nat)),
      (∀ cb ∈ cbs, ∃ cell, fr.lookup cb = some cell
          ∧ (cell.tags.map Prod.fst).Nodup
          ∧ ∀ t cnt, (t, cnt) ∈ cell.tags → cnt ≠ [] →
              ∃ info, otm.lookup t = some info ∧ info.id < n_tags) →
      ∃ ms', gen_cells otm n_tags fr cbs i ms = some ms'
        ∧ (∀ j (hj : j < cbs.length) cell t cnt info,
            fr.lookup (cbs.get ⟨j, hj⟩) = some cell → (t, cnt) ∈ cell.tags →
            cnt ≠ [] → otm.lookup t = some info →
            ms'.1 info.id (i + j) = cnt.length
              ∧ ms'.2 info.id (i + j) = (cnt.map Prod.snd).sum)
        ∧ (∀ r c, (∀ j (hj : j < cbs.length),
              c = i + j → ¬cellHit fr otm (cbs.get ⟨j, hj⟩) r) →
            ms'.1 r c = ms.1 r c ∧ ms'.2 r c = ms.2 r c) := by
  intro cbs
  induction cbs with
  | nil =>
    intro i ms _
    refine ⟨ms, rfl, ?_, fun r c _ => ⟨rfl, rfl⟩⟩
    intro j hj
    exact absurd hj (Nat.not_lt_zero j)
  | cons cb rest ih =>
    intro i ms hcbs
    obtain ⟨cell0, hlc, hkeys0, hlk0⟩ := hcbs cb (List.mem_cons_self _ _)
    obtain ⟨ms1, heq1, hval1, hframe1⟩ :=
      gen_cell_spec otm n_tags i cell0.tags ms hinj hkeys0 hlk0
    obtain ⟨ms', heq2, hval2, hframe2⟩ := ih (i + 1) ms1
      (fun cb' h => hcbs cb' (List.mem_cons_of_mem _ h))
    refine ⟨ms', ?_, ?_, ?_⟩
    · simp only [gen_cells, hlc, heq1]
      exact heq2
    · intro j hj cell t cnt info hlook htm hcne hlt
      cases j with
      | zero =>
        have hcell : cell0 = cell := by
          have hlook' : fr.lookup cb = some cell := hlook
          rw [hlc] at hlook'
          exact Option.some.inj hlook'
        subst hcell
        rw [Nat.add_zero]
        have hnores : ∀ j' (hj' : j' < rest.length), i = (i + 1) + j' →
            ¬cellHit fr otm (rest.get ⟨j', hj'⟩) info.id := by
          intro j' hj' habs
          omega
        obtain ⟨hf1, hf2⟩ := hframe2 info.id i hnores
        constructor
        · rw [hf1]
          exact (hval1 t cnt info htm hcne hlt).1
        · rw [hf2]
          exact (hval1 t cnt info htm hcne hlt).2
      | succ j' =>
        have hj' : j' < rest.length := by
          simp only [List.length_cons] at hj
          omega
        have harith : i + (j' + 1) = (i + 1) + j' := by omega
        rw [harith]
        exact hval2 j' hj' cell t cnt info hlook htm hcne hlt
    · intro r c hno
      have hno2 : ∀ j' (hj' : j' < rest.length), c = (i + 1) + j' →
          ¬cellHit fr otm (rest.get ⟨j', hj'⟩) r := by
        intro j' hj' hc
        have hj2 : j' + 1 < (cb :: rest).length := by
          simp only [List.length_cons]
          omega
        exact hno (j' + 1) hj2 (by omega)
      obtain ⟨hf1, hf2⟩ := hframe2 r c hno2
      have hno1 : ¬(c = i ∧ ∃ t cnt info, (t, cnt) ∈ cell0.tags ∧ cnt ≠ []
          ∧ otm.lookup t = some info ∧ info.id = r) := by
        rintro ⟨hc, t, cnt, info, htm, hcne, hlm, hidm⟩
        have hj0 : 0 < (cb :: rest).length := by
          simp only [List.length_cons]
          omega
        exact hno 0 hj0 (by omega) ⟨cell0, t, cnt, info, hlc, htm, hcne, hlm, hidm⟩
      obtain ⟨hg1, hg2⟩ := hframe1 r c hno1
      exact ⟨hf1.trans hg1, hf2.trans hg2⟩

/-- C6: `generate_sparse_matrices` on a well-formed corrected result set
(panel ids distinct and, for each selected cell, dict keys distinct with
every non-empty tag known to the panel within the matrix shape) succeeds
and, for the cell at column `i` of the ordered selection and each of its
tags with a non-empty UMI counter, sets the UMI matrix entry at
`(tag.id, i)` to the counter's length (its number of distinct UMIs,
counter keys being distinct) and the read matrix entry at `(tag.id, i)`
to the sum of all that counter's UMI counts, leaving every entry not so
written zero. -/
theorem generate_sparse_matrices_spec (final_results : FinalResults)
    (ordered_tags_map : List (String × TagInfo)) (top_cells : List String)
    (hids : (ordered_tags_map.map (fun e => e.2.id)).Nodup)
    (hcells : ∀ cb ∈ top_cells, ∃ cell, final_results.lookup cb = some cell
        ∧ (cell.tags.map Prod.fst).Nodup
        ∧ ∀ t cnt, (t, cnt) ∈ cell.tags → cnt ≠ [] →
            (cnt.map Prod.fst).Nodup ∧
            ∃ info, ordered_tags_map.lookup t = some info
              ∧ info.id < ordered_tags_map.length) :
    ∃ umiM readM,
      generate_sparse_matrices final_results ordered_tags_map top_cells
        = some (umiM, readM)
      ∧ (∀ i (hi : i < top_cells.length) cell t cnt info,
          final_results.lookup (top_cells.get ⟨i, hi⟩) = some cell →
          (t, cnt) ∈ cell.tags → cnt ≠ [] →
          ordered_tags_map.lookup t = some info →
          umiM info.id i = cnt.length
            ∧ readM info.id i = (cnt.map Prod.snd).sum)
      ∧ (∀ r c, ¬tagHit final_results ordered_tags_map top_cells r c →
          umiM r c = 0 ∧ readM r c = 0) := by
  have hinj : ∀ e1 ∈ ordered_tags_map, ∀ e2 ∈ ordered_tags_map,
      e1.2.id = e2.2.id → e1 = e2 :=
    fun e1 h1 e2 h2 he => List.inj_on_of_nodup_map hids h1 h2 he
  obtain ⟨ms', heq, hval, hframe⟩ :=
    gen_cells_spec ordered_tags_map ordered_tags_map.length final_results hinj
      top_cells 0 (fun _ _ => 0, fun _ _ => 0)
      (fun cb h => by
        obtain ⟨cell, h1, h2, h3⟩ := hcells cb h
        exact ⟨cell, h1, h2, fun t cnt ht hn => (h3 t cnt ht hn).2⟩)
  refine ⟨ms'.1, ms'.2, heq, ?_, ?_⟩
  · intro i hi cell t cnt info h1 h2 h3 h4
    have hv := hval i hi cell t cnt info h1 h2 h3 h4
    rwa [Nat.zero_add] at hv
  · intro r c hnh
    refine hframe r c ?_
    intro j hj hc hhit
    have hcj : c = j := by omega
    subst hcj
    exact hnh ⟨hj, hhit⟩

/-- Witness for C6: the spec's own example — one cell `CELL1` with tag
`tagX` (panel id 0) holding UMIs `u1 ↦ 2, u2 ↦ 3`: UMI entry 2, read
entry 5. -/
theorem generate_sparse_matrices_spec_witness :
    (([("tagX", ⟨0, "AAAA"⟩)] : List (String × TagInfo)).map
        (fun e => e.2.id)).Nodup
    ∧ (∃ umiM readM,
        generate_sparse_matrices
            [("CELL1", ⟨true, [("tagX", [("u1", 2), ("u2", 3)])]⟩)]
            [("tagX", ⟨0, "AAAA"⟩)] ["CELL1"]
          = some (umiM, readM)
        ∧ (∀ i (hi : i < (["CELL1"] : List String).length) cell t cnt info,
            List.lookup ((["CELL1"] : List String).get ⟨i, hi⟩)
                ([("CELL1", ⟨true, [("tagX", [("u1", 2), ("u2", 3)])]⟩)] :
                  FinalResults) = some cell →
            (t, cnt) ∈ cell.tags → cnt ≠ [] →
            List.lookup t ([("tagX", ⟨0, "AAAA"⟩)] : List (String × TagInfo))
              = some info →
            umiM info.id i = cnt.length
              ∧ readM info.id i = (cnt.map Prod.snd).sum)
        ∧ (∀ r c, ¬tagHit [("CELL1", ⟨true, [("tagX", [("u1", 2), ("u2", 3)])]⟩)]
              [("tagX", ⟨0, "AAAA"⟩)] ["CELL1"] r c →
            umiM r c = 0 ∧ readM r c = 0)) :=
  ⟨by decide,
    generate_sparse_matrices_spec
      [("CELL1", ⟨true, [("tagX", [("u1", 2), ("u2", 3)])]⟩)]
      [("tagX", ⟨0, "AAAA"⟩)] ["CELL1"] (by decide)
      (by
        intro cb hcb
        have hce : cb = "CELL1" := by simpa using hcb
        subst hce
        refine ⟨⟨true, [("tagX", [("u1", 2), ("u2", 3)])]⟩, rfl, by decide, ?_⟩
        intro t cnt ht hn
        have hte : (t, cnt) = ("tagX", [("u1", 2), ("u2", 3)]) := by simpa using ht
        rw [Prod.mk.injEq] at hte
        obtain ⟨h1, h2⟩ := hte
        rw [h1, h2]
        exact ⟨by decide, ⟨0, "AAAA"⟩, rfl, by decide⟩)⟩
